import Mathlib

/-!
# Verification of the Sudoku engine

Shallow embedding of the Sudoku engine of the repository
(`solveSudoku`, `isValidPlacement`, `generateSudoku`, `getHint` in one
source file; `isValidSudoku`, `findConflicts` in the other), together with
proofs of the specification claims.

Modelling conventions:
* A grid cell holds `Option Nat` (`none` is the JS `null`); a grid is a
  total function `Fin 9 → Fin 9 → Option Nat`, which bakes in the 9×9
  shape of the JS array-of-arrays.
* JS in-place mutation is modelled by explicit state passing: a function
  that mutates its board argument returns the final board alongside its
  JS return value.
* `Math.random()` draws are modelled by an injected list of draws
  (the spec's "seedable random-number source"); `Math.floor(Math.random()*n)`
  is an arbitrary value in `[0, n)`.
* The unbounded recursion of the JS backtracking solver is made structural
  with a fuel parameter; the fuel is instantiated with the number of empty
  cells, which is an upper bound for the recursion depth, so the fuelled
  function agrees with the JS recursion everywhere.
-/

namespace Sudoku

/-- A 9×9 Sudoku grid: each cell holds `null` (`none`) or a number. -/
abbrev Grid : Type := Fin 9 → Fin 9 → Option Nat

/-- The all-empty grid (`Array(9).fill(null).map(() => Array(9).fill(null))`). -/
def emptyGrid : Grid := fun _ _ => none

/-- Write a single cell (`board[row][col] = v`). -/
def setCell (g : Grid) (r c : Fin 9) (v : Option Nat) : Grid :=
  fun r' c' => if r' = r ∧ c' = c then v else g r' c'

/-- Cloning a grid (`grid.map((r) => [...r])`): a fresh value with the same
cells. -/
def cloneGrid (g : Grid) : Grid := fun r c => g r c

/-- All 81 cell coordinates in row-major order (the scan order of every
`for (row) for (col)` loop in the source). -/
def allCells : List (Fin 9 × Fin 9) :=
  (List.finRange 9).flatMap fun r => (List.finRange 9).map fun c => (r, c)

/-- Row of the box peer visited at loop index `i` when checking `(row, col)`:
`3 * Math.floor(row / 3) + Math.floor(i / 3)`. -/
def pBoxRow (row i : Fin 9) : Fin 9 :=
  ⟨3 * (row.val / 3) + i.val / 3, by have := row.2; have := i.2; omega⟩

/-- Column of the box peer visited at loop index `i` when checking
`(row, col)`: `3 * Math.floor(col / 3) + (i % 3)`. -/
def pBoxCol (col i : Fin 9) : Fin 9 :=
  ⟨3 * (col.val / 3) + i.val % 3, by have := col.2; have := i.2; omega⟩

/-- `isValidPlacement(board, row, col, num)`: true iff `num` appears in none
of the 9 row cells, 9 column cells and 9 box cells scanned by the loop. -/
def isValidPlacement (board : Grid) (row col : Fin 9) (num : Nat) : Bool :=
  (List.finRange 9).all fun i =>
    !(board row i == some num) && !(board i col == some num) &&
      !(board (pBoxRow row i) (pBoxCol col i) == some num)

/-- `findEmptyCell()`: first `null` cell in row-major order. -/
def findEmptyCell (board : Grid) : Option (Fin 9 × Fin 9) :=
  allCells.find? fun p => (board p.1 p.2).isNone

/-- Number of empty cells of a grid.  Not part of the source: it is the
recursion-depth bound used as fuel for the backtracking solver. -/
def emptyCount (g : Grid) : Nat :=
  (Finset.univ.filter fun p : Fin 9 × Fin 9 => g p.1 p.2 = none).card

/-- Number of non-empty cells of a grid. -/
def filledCount (g : Grid) : Nat :=
  (Finset.univ.filter fun p : Fin 9 × Fin 9 => g p.1 p.2 ≠ none).card

/-- The digit list `1..9` tried by the solver's `for (num = 1; num <= 9)`
loop, in ascending order. -/
def candidateNums : List Nat := [1, 2, 3, 4, 5, 6, 7, 8, 9]

/-- The solver's inner `for (num = 1; num <= 9)` loop at empty cell
`(r, c)`: try each remaining candidate; a successful recursive `solver`
call (the solver one fuel level down) returns immediately, a failed one
resets the cell to `null` (backtrack) before trying the next candidate. -/
def tryNums (solver : Grid → Bool × Grid) (board : Grid) (r c : Fin 9) :
    List Nat → Bool × Grid
  | [] => (false, board)
  | num :: rest =>
    if isValidPlacement board r c num then
      match solver (setCell board r c (some num)) with
      | (true, board') => (true, board')
      | (false, board') => tryNums solver (setCell board' r c none) r c rest
    else tryNums solver board r c rest

/-- Fuelled form of `solveSudoku(board)`.  Returns the JS boolean result
together with the final content of the (in JS, in-place mutated) board.
With fuel at least `emptyCount board` the fuel-exhaustion branch is
unreachable, so this is the JS recursion. -/
def solveGo : Nat → Grid → Bool × Grid
  | 0, board =>
    match findEmptyCell board with
    | none => (true, board)
    | some _ => (false, board)
  | fuel + 1, board =>
    match findEmptyCell board with
    | none => (true, board)
    | some rc => tryNums (solveGo fuel) board rc.1 rc.2 candidateNums

/-- `solveSudoku(board)`: the JS recursion, with its depth bound
`emptyCount board` as fuel. -/
def solveSudoku (board : Grid) : Bool × Grid :=
  solveGo (emptyCount board) board

/-! ## Generator -/

/-- The three difficulty levels. -/
inductive Difficulty : Type
  | easy
  | medium
  | hard
deriving DecidableEq

/-- `difficultyMapping = { easy: 36, medium: 27, hard: 18 }`. -/
def difficultyMapping : Difficulty → Nat
  | .easy => 36
  | .medium => 27
  | .hard => 18

/-- `removeNumbers(board, count)`: the `while (removed < count)` loop.
`rands` is the stream of `Math.random()` cell draws; a draw landing on a
non-`null` cell clears it and increments `removed`, any other draw only
consumes a loop iteration.  Returns `none` when the finite draw stream is
exhausted before `count` cells were cleared (the JS loop would still be
running), otherwise the final board and the number of loop iterations
executed. -/
def removeNumbers (board : Grid) (count removed : Nat)
    (rands : List (Fin 9 × Fin 9)) : Option (Grid × Nat) :=
  if count ≤ removed then some (board, 0)
  else
    match rands with
    | [] => none
    | (r, c) :: rest =>
      if (board r c).isSome then
        match removeNumbers (setCell board r c none) count (removed + 1) rest with
        | some (g', iters) => some (g', iters + 1)
        | none => none
      else
        match removeNumbers board count removed rest with
        | some (g', iters) => some (g', iters + 1)
        | none => none

/-- `generateSudoku(difficulty)`: build the solved board
(`createSolvedBoard()` runs the solver on an all-empty board and returns
the board, discarding the boolean), clone it, then remove
`81 - difficultyMapping[difficulty]` numbers using the draw stream `rands`;
`none` when the draw stream is too short for the removal loop to finish. -/
def generateSudoku (difficulty : Difficulty) (rands : List (Fin 9 × Fin 9)) :
    Option Grid :=
  (removeNumbers (cloneGrid (solveSudoku emptyGrid).2)
    (81 - difficultyMapping difficulty) 0 rands).map (·.1)

/-! ## Hint provider -/

/-- The hint triple `{ row, col, value }`. -/
structure Hint : Type where
  row : Fin 9
  col : Fin 9
  value : Nat
deriving DecidableEq

/-- The `emptyCells` array of `getHint`: all empty cells in row-major
order. -/
def emptyCellsList (grid : Grid) : List (Fin 9 × Fin 9) :=
  allCells.filter fun p => (grid p.1 p.2).isNone

/-- `getHint(grid)`: collect the empty cells in row-major order, pick one at
random (`k` models the `Math.random()` draw; the JS index
`Math.floor(Math.random() * len)` is `k % len`), solve a clone
(`tempGrid`), and read the chosen cell from the solved clone.  The second
component is the content of the caller's grid after the call (the solver
mutates only the clone). -/
def getHint (grid : Grid) (k : Nat) : Option Hint × Grid :=
  if h : (emptyCellsList grid).length = 0 then (none, grid)
  else
    let rc := (emptyCellsList grid).get ⟨k % (emptyCellsList grid).length,
      Nat.mod_lt _ (Nat.pos_of_ne_zero h)⟩
    match solveSudoku (cloneGrid grid) with
    | (true, solved) =>
      match solved rc.1 rc.2 with
      | some v => (some ⟨rc.1, rc.2, v⟩, grid)
      | none => (none, grid)
    | (false, _) => (none, grid)

/-! ## Validator -/

/-- The `conflicts` matrix: `true` marks a conflicting cell. -/
abbrev Conflicts : Type := Fin 9 → Fin 9 → Bool

/-- `markConflicts` on a single cell: `conflicts[row][col] = true`. -/
def markConflict (conf : Conflicts) (r c : Fin 9) : Conflicts :=
  fun r' c' => if r' = r ∧ c' = c then true else conf r' c'

/-- A JS `Map` from cell values to a first-occurrence loop index. -/
abbrev NMap : Type := Nat → Option (Fin 9)

/-- A JS `Map` from cell values to a first-occurrence coordinate pair. -/
abbrev PMap : Type := Nat → Option (Fin 9 × Fin 9)

/-- The empty `new Map()` (value-to-index). -/
def emptyNMap : NMap := fun _ => none

/-- The empty `new Map()` (value-to-pair). -/
def emptyPMap : PMap := fun _ => none

/-- `map.set(v, j)` for a value-to-index map. -/
def nset (m : NMap) (v : Nat) (j : Fin 9) : NMap :=
  fun v' => if v' = v then some j else m v'

/-- `map.set(v, rc)` for a value-to-pair map. -/
def pset (m : PMap) (v : Nat) (rc : Fin 9 × Fin 9) : PMap :=
  fun v' => if v' = v then some rc else m v'

/-- Row half of one iteration of `findConflicts`' inner `j` loop: process
`rowValue = grid[i][j]` against `rowConflicts`. -/
def rcStep1 (g : Grid) (i jj : Fin 9) (conf : Conflicts) (rm : NMap) :
    Conflicts × NMap :=
  match g i jj with
  | none => (conf, rm)
  | some v =>
    match rm v with
    | some j0 => (markConflict (markConflict conf i j0) i jj, rm)
    | none => (conf, nset rm v jj)

/-- Column half of one iteration of `findConflicts`' inner `j` loop: process
`colValue = grid[j][i]` against `colConflicts`. -/
def rcStep2 (g : Grid) (i jj : Fin 9) (conf : Conflicts) (cm : NMap) :
    Conflicts × NMap :=
  match g jj i with
  | none => (conf, cm)
  | some v =>
    match cm v with
    | some j0 => (markConflict (markConflict conf j0 i) jj i, cm)
    | none => (conf, nset cm v jj)

/-- `findConflicts`' inner `for (j = 0; j < 9; j++)` loop, processing row `i`
and column `i` simultaneously, starting at index `j`. -/
def rcLoop (g : Grid) (i : Fin 9) (j : Nat) (conf : Conflicts)
    (rm cm : NMap) : Conflicts × NMap × NMap :=
  if h : j < 9 then
    rcLoop g i (j + 1)
      (rcStep2 g i ⟨j, h⟩ (rcStep1 g i ⟨j, h⟩ conf rm).1 cm).1
      (rcStep1 g i ⟨j, h⟩ conf rm).2
      (rcStep2 g i ⟨j, h⟩ (rcStep1 g i ⟨j, h⟩ conf rm).1 cm).2
  else (conf, rm, cm)
termination_by 9 - j

/-- `findConflicts`' outer `for (i = 0; i < 9; i++)` loop over rows and
columns, with fresh `rowConflicts` / `colConflicts` maps for each `i`. -/
def rcPass (g : Grid) (i : Nat) (conf : Conflicts) : Conflicts :=
  if h : i < 9 then
    rcPass g (i + 1) (rcLoop g ⟨i, h⟩ 0 conf emptyNMap emptyNMap).1
  else conf
termination_by 9 - i

/-- Row of the `p`-th cell (row-major within the box) of box `b`, where the
boxes are enumerated in the source's `rowStart`/`colStart` order:
`rowStart = 3 * (b / 3)` and the inner loops visit `r = rowStart + p / 3`. -/
def boxCellR (b p : Fin 9) : Fin 9 :=
  ⟨3 * (b.val / 3) + p.val / 3, by have := b.2; have := p.2; omega⟩

/-- Column of the `p`-th cell of box `b`: `colStart = 3 * (b % 3)` and the
inner loops visit `c = colStart + p % 3`. -/
def boxCellC (b p : Fin 9) : Fin 9 :=
  ⟨3 * (b.val % 3) + p.val % 3, by have := b.2; have := p.2; omega⟩

/-- One iteration of `findConflicts`' sub-grid loop body: process
`value = grid[r][c]` for the `pp`-th cell of box `b` against
`subGridConflicts` (which stores the first-occurrence `[row, col]` pair). -/
def boxStep (g : Grid) (b pp : Fin 9) (conf : Conflicts) (m : PMap) :
    Conflicts × PMap :=
  match g (boxCellR b pp) (boxCellC b pp) with
  | none => (conf, m)
  | some v =>
    match m v with
    | some rc => (markConflict (markConflict conf rc.1 rc.2)
        (boxCellR b pp) (boxCellC b pp), m)
    | none => (conf, pset m v (boxCellR b pp, boxCellC b pp))

/-- `findConflicts`' inner double loop over the 9 cells of box `b`
(row-major, the source's `for (r) for (c)` order), starting at cell `p`. -/
def boxLoop (g : Grid) (b : Fin 9) (p : Nat) (conf : Conflicts) (m : PMap) :
    Conflicts × PMap :=
  if h : p < 9 then
    boxLoop g b (p + 1) (boxStep g b ⟨p, h⟩ conf m).1
      (boxStep g b ⟨p, h⟩ conf m).2
  else (conf, m)
termination_by 9 - p

/-- `findConflicts`' outer double loop over `rowStart`/`colStart`, i.e. over
the 9 boxes in the source's order, with a fresh `subGridConflicts` map per
box. -/
def boxPass (g : Grid) (b : Nat) (conf : Conflicts) : Conflicts :=
  if h : b < 9 then
    boxPass g (b + 1) (boxLoop g ⟨b, h⟩ 0 conf emptyPMap).1
  else conf
termination_by 9 - b

/-- `findConflicts(grid)`: start from the all-`false` matrix, run the
row/column pass, then the sub-grid pass. -/
def findConflicts (g : Grid) : Conflicts :=
  boxPass g 0 (rcPass g 0 fun _ _ => false)

/-- `isValidGroup(numbers)`: drop the `null`s, then compare the number of
distinct values (`new Set(filtered).size`) with the length. -/
def isValidGroup (numbers : List (Option Nat)) : Bool :=
  ((numbers.filterMap id).dedup.length == (numbers.filterMap id).length)

/-- `isValidSudoku(grid)`: every row, every column and every 3×3 sub-grid
(in the source's `box.push` order) is a valid group. -/
def isValidSudoku (g : Grid) : Bool :=
  ((List.finRange 9).all fun i =>
    isValidGroup ((List.finRange 9).map fun j => g i j) &&
      isValidGroup ((List.finRange 9).map fun j => g j i)) &&
  ((List.finRange 9).all fun b =>
    isValidGroup ((List.finRange 9).map fun p => g (boxCellR b p) (boxCellC b p)))

/-! ## Specification predicates -/

/-- The cells `(r, c)` and `(r', c')` lie in the same 3×3 box. -/
def sameBox (r c r' c' : Fin 9) : Prop :=
  r.val / 3 = r'.val / 3 ∧ c.val / 3 = c'.val / 3

instance (r c r' c' : Fin 9) : Decidable (sameBox r c r' c') :=
  inferInstanceAs (Decidable (And _ _))

/-- Two distinct cells sharing a row, a column or a 3×3 box. -/
def peers (r c r' c' : Fin 9) : Prop :=
  (r ≠ r' ∨ c ≠ c') ∧ (r = r' ∨ c = c' ∨ sameBox r c r' c')

instance (r c r' c' : Fin 9) : Decidable (peers r c r' c') :=
  inferInstanceAs (Decidable (And _ _))

/-- A grid is free of conflicts: no two distinct cells of a common row,
column or box hold the same non-`null` value. -/
def noDup (g : Grid) : Prop :=
  ∀ r c r' c' : Fin 9, peers r c r' c' → g r c ≠ none → g r c ≠ g r' c'

instance (g : Grid) : Decidable (noDup g) := by
  unfold noDup; infer_instance

/-- A cell value allowed by the data model: `null` or a digit 1–9 (`none`
defaults to the in-range value 1, so it always passes). -/
def cellInRange (o : Option Nat) : Prop := 1 ≤ o.getD 1 ∧ o.getD 1 ≤ 9

instance : DecidablePred cellInRange := fun _ =>
  inferInstanceAs (Decidable (And _ _))

/-- Every cell of the grid is `null` or holds a digit 1–9. -/
def wellFormed (g : Grid) : Prop := ∀ r c : Fin 9, cellInRange (g r c)

instance (g : Grid) : Decidable (wellFormed g) := by
  unfold wellFormed; infer_instance

/-- Every cell of the grid is filled. -/
def fullGrid (g : Grid) : Prop := ∀ r c : Fin 9, g r c ≠ none

instance (g : Grid) : Decidable (fullGrid g) := by
  unfold fullGrid; infer_instance

/-- `g₁` is contained in `g₂`: every filled cell of `g₁` is identically
filled in `g₂`. -/
def gridLE (g₁ g₂ : Grid) : Prop :=
  ∀ (r c : Fin 9) (d : Nat), g₁ r c = some d → g₂ r c = some d

/-! ## Concrete grids used as test inputs -/

/-- A full conflict-free grid (the classic shifted-rows pattern). -/
def gCanon : Grid :=
  fun r c => some ((3 * (r.val % 3) + r.val / 3 + c.val) % 9 + 1)

/-- `gCanon` with its first cell cleared. -/
def gAlmost : Grid :=
  fun r c => if r.val = 0 ∧ c.val = 0 then none else gCanon r c

/-- An unsolvable grid: row 0 holds `1..8` followed by a blank whose only
candidate `9` is blocked by the `9` at `(1, 8)`. -/
def gBad : Grid := fun r c =>
  if r.val = 0 ∧ c.val ≤ 7 then some (c.val + 1)
  else if r.val = 1 ∧ c.val = 8 then some 9
  else none

/-! ## Basic lemmas -/

theorem setCell_hit (g : Grid) (r c : Fin 9) (v : Option Nat) :
    setCell g r c v r c = v := by
  simp [setCell]

theorem setCell_miss (g : Grid) (r c : Fin 9) (v : Option Nat)
    (r' c' : Fin 9) (h : ¬(r' = r ∧ c' = c)) :
    setCell g r c v r' c' = g r' c' := by
  simp [setCell, h]

theorem setCell_cancel (g : Grid) (r c : Fin 9) (v : Option Nat)
    (h : g r c = none) : setCell (setCell g r c v) r c none = g := by
  funext r' c'
  by_cases hp : r' = r ∧ c' = c
  · obtain ⟨rfl, rfl⟩ := hp
    simp [setCell, h]
  · simp [setCell, hp]

theorem mem_allCells (p : Fin 9 × Fin 9) : p ∈ allCells := by
  simp only [allCells, List.mem_flatMap, List.mem_map, List.mem_finRange]
  exact ⟨p.1, trivial, p.2, trivial, rfl⟩

theorem findEmptyCell_eq_none_iff (g : Grid) :
    findEmptyCell g = none ↔ ∀ r c, g r c ≠ none := by
  simp only [findEmptyCell, List.find?_eq_none, Option.isNone_iff_eq_none]
  constructor
  · intro h r c
    simpa using h (r, c) (mem_allCells (r, c))
  · intro h p _
    simpa using h p.1 p.2

theorem findEmptyCell_some (g : Grid) (rc : Fin 9 × Fin 9)
    (h : findEmptyCell g = some rc) : g rc.1 rc.2 = none := by
  have := List.find?_some h
  simpa [Option.isNone_iff_eq_none] using this

theorem emptyCount_zero_full (g : Grid) (h : emptyCount g = 0) :
    findEmptyCell g = none := by
  rw [findEmptyCell_eq_none_iff]
  intro r c hc
  have hmem : (r, c) ∈ Finset.univ.filter
      (fun p : Fin 9 × Fin 9 => g p.1 p.2 = none) := by
    simp [Finset.mem_filter, hc]
  have := Finset.card_pos.mpr ⟨(r, c), hmem⟩
  unfold emptyCount at h
  omega

theorem emptyCount_setCell_some (g : Grid) (r c : Fin 9) (v : Nat)
    (h : g r c = none) :
    emptyCount (setCell g r c (some v)) + 1 = emptyCount g := by
  have hset : (Finset.univ.filter
      (fun p : Fin 9 × Fin 9 => setCell g r c (some v) p.1 p.2 = none))
      = (Finset.univ.filter
        (fun p : Fin 9 × Fin 9 => g p.1 p.2 = none)).erase (r, c) := by
    ext p
    by_cases hp : p.1 = r ∧ p.2 = c
    · have hpe : p = (r, c) := Prod.ext hp.1 hp.2
      simp [Finset.mem_filter, Finset.mem_erase, hpe, setCell]
    · have hpe : p ≠ (r, c) := by
        intro hq
        exact hp ⟨by rw [hq], by rw [hq]⟩
      simp only [Finset.mem_filter, Finset.mem_erase, setCell, hp, if_false,
        Finset.mem_univ, true_and, and_true]
      constructor
      · intro hn
        exact ⟨hpe, hn⟩
      · intro hn
        exact hn.2
  have hmem : (r, c) ∈ Finset.univ.filter
      (fun p : Fin 9 × Fin 9 => g p.1 p.2 = none) := by
    simp [Finset.mem_filter, h]
  have hcard := Finset.card_erase_of_mem hmem
  have hpos := Finset.card_pos.mpr ⟨(r, c), hmem⟩
  unfold emptyCount
  rw [hset, hcard]
  omega

theorem filledCount_setCell_none (g : Grid) (r c : Fin 9)
    (h : g r c ≠ none) :
    filledCount (setCell g r c none) + 1 = filledCount g := by
  have hset : (Finset.univ.filter
      (fun p : Fin 9 × Fin 9 => setCell g r c none p.1 p.2 ≠ none))
      = (Finset.univ.filter
        (fun p : Fin 9 × Fin 9 => g p.1 p.2 ≠ none)).erase (r, c) := by
    ext p
    by_cases hp : p.1 = r ∧ p.2 = c
    · have hpe : p = (r, c) := Prod.ext hp.1 hp.2
      simp [Finset.mem_filter, Finset.mem_erase, hpe, setCell]
    · have hpe : p ≠ (r, c) := by
        intro hq
        exact hp ⟨by rw [hq], by rw [hq]⟩
      simp only [Finset.mem_filter, Finset.mem_erase, setCell, hp, if_false,
        Finset.mem_univ, true_and, and_true]
      constructor
      · intro hn
        exact ⟨hpe, hn⟩
      · intro hn
        exact hn.2
  have hmem : (r, c) ∈ Finset.univ.filter
      (fun p : Fin 9 × Fin 9 => g p.1 p.2 ≠ none) := by
    simp [Finset.mem_filter, h]
  have hcard := Finset.card_erase_of_mem hmem
  have hpos := Finset.card_pos.mpr ⟨(r, c), hmem⟩
  unfold filledCount
  rw [hset, hcard]
  omega

theorem fullGrid_filledCount (g : Grid) (h : fullGrid g) :
    filledCount g = 81 := by
  unfold filledCount
  have : (Finset.univ.filter
      (fun p : Fin 9 × Fin 9 => g p.1 p.2 ≠ none)) = Finset.univ := by
    apply Finset.filter_true_of_mem
    intro p _
    exact h p.1 p.2
  rw [this]
  simp

theorem gridLE_refl (g : Grid) : gridLE g g := fun _ _ _ h => h

theorem gridLE_trans (g₁ g₂ g₃ : Grid) (h₁ : gridLE g₁ g₂)
    (h₂ : gridLE g₂ g₃) : gridLE g₁ g₃ :=
  fun r c d h => h₂ r c d (h₁ r c d h)

theorem gridLE_setCell_none (g : Grid) (r c : Fin 9) :
    gridLE (setCell g r c none) g := by
  intro a b d h
  by_cases hp : a = r ∧ b = c
  · obtain ⟨rfl, rfl⟩ := hp
    rw [setCell_hit] at h
    exact absurd h (by simp)
  · rwa [setCell_miss _ _ _ _ _ _ hp] at h

theorem gridLE_setCell_some (g : Grid) (r c : Fin 9) (v : Nat)
    (h : g r c = none) : gridLE g (setCell g r c (some v)) := by
  intro a b d hd
  by_cases hp : a = r ∧ b = c
  · obtain ⟨rfl, rfl⟩ := hp
    rw [h] at hd
    exact absurd hd (by simp)
  · rwa [setCell_miss _ _ _ _ _ _ hp]

theorem noDup_mono (g₁ g₂ : Grid) (hle : gridLE g₁ g₂) (h : noDup g₂) :
    noDup g₁ := by
  intro r c r' c' hp hne heq
  obtain ⟨d, hd⟩ := Option.ne_none_iff_exists'.mp hne
  have hd' : g₁ r' c' = some d := by rw [← heq]; exact hd
  have h₂ : g₂ r c = some d := hle r c d hd
  have h₂' : g₂ r' c' = some d := hle r' c' d hd'
  exact h r c r' c' hp (by simp [h₂]) (by rw [h₂, h₂'])

theorem sameBox_symm (r c r' c' : Fin 9) (h : sameBox r c r' c') :
    sameBox r' c' r c := ⟨h.1.symm, h.2.symm⟩

/-! ## The constraint checker -/

theorem isValidPlacement_iff (g : Grid) (row col : Fin 9) (num : Nat) :
    isValidPlacement g row col num = true ↔
      ∀ r' c' : Fin 9, (r' = row ∨ c' = col ∨ sameBox row col r' c') →
        g r' c' ≠ some num := by
  simp only [isValidPlacement, List.all_eq_true, List.mem_finRange,
    Bool.and_eq_true, Bool.not_eq_true', beq_eq_false_iff_ne, ne_eq,
    true_implies]
  constructor
  · rintro h r' c' (rfl | rfl | hbox)
    · exact ((h c').1).1
    · exact ((h r').1).2
    · have hr' := r'.2
      have hc' := c'.2
      have hrow := row.2
      have hcol := col.2
      have hi : 3 * (r'.val % 3) + c'.val % 3 < 9 := by omega
      have h3 := (h ⟨3 * (r'.val % 3) + c'.val % 3, hi⟩).2
      have her : pBoxRow row ⟨3 * (r'.val % 3) + c'.val % 3, hi⟩ = r' := by
        apply Fin.ext
        simp only [pBoxRow]
        obtain ⟨hb1, hb2⟩ := hbox
        omega
      have hec : pBoxCol col ⟨3 * (r'.val % 3) + c'.val % 3, hi⟩ = c' := by
        apply Fin.ext
        simp only [pBoxCol]
        obtain ⟨hb1, hb2⟩ := hbox
        omega
      rw [her, hec] at h3
      exact h3
  · intro h i
    refine ⟨⟨h row i (Or.inl rfl), h i col (Or.inr (Or.inl rfl))⟩, ?_⟩
    apply h
    right; right
    have hrow := row.2
    have hcol := col.2
    have hi := i.2
    constructor
    · show row.val / 3 = (3 * (row.val / 3) + i.val / 3) / 3
      omega
    · show col.val / 3 = (3 * (col.val / 3) + i.val % 3) / 3
      omega

theorem placement_preserves_noDup (g : Grid) (r c : Fin 9) (num : Nat)
    (hg : g r c = none) (hv : isValidPlacement g r c num = true)
    (hn : noDup g) : noDup (setCell g r c (some num)) := by
  have hspec := (isValidPlacement_iff g r c num).mp hv
  intro a b a' b' hp hne heq
  by_cases h1 : a = r ∧ b = c
  · obtain ⟨rfl, rfl⟩ := h1
    rw [setCell_hit] at heq
    by_cases h2 : a' = a ∧ b' = b
    · rcases hp.1 with h | h
      · exact h h2.1.symm
      · exact h h2.2.symm
    · rw [setCell_miss _ _ _ _ _ _ h2] at heq
      have : g a' b' ≠ some num := by
        apply hspec
        rcases hp.2 with h | h | h
        · exact Or.inl h.symm
        · exact Or.inr (Or.inl h.symm)
        · exact Or.inr (Or.inr h)
      exact this heq.symm
  · rw [setCell_miss _ _ _ _ _ _ h1] at hne heq
    by_cases h2 : a' = r ∧ b' = c
    · obtain ⟨rfl, rfl⟩ := h2
      rw [setCell_hit] at heq
      have : g a b ≠ some num := by
        apply hspec
        rcases hp.2 with h | h | h
        · exact Or.inl h
        · exact Or.inr (Or.inl h)
        · exact Or.inr (Or.inr (sameBox_symm _ _ _ _ h))
      exact this heq
    · rw [setCell_miss _ _ _ _ _ _ h2] at heq
      exact hn a b a' b' hp hne heq

theorem placement_preserves_wellFormed (g : Grid) (r c : Fin 9) (num : Nat)
    (h1 : 1 ≤ num) (h9 : num ≤ 9) (hw : wellFormed g) :
    wellFormed (setCell g r c (some num)) := by
  intro a b
  by_cases hp : a = r ∧ b = c
  · obtain ⟨rfl, rfl⟩ := hp
    rw [setCell_hit]
    exact ⟨h1, h9⟩
  · rw [setCell_miss _ _ _ _ _ _ hp]
    exact hw a b

/-! ## Solver soundness -/

/-- The behavioural contract of one level of the backtracking solver:
failure restores the board, filled cells are never overwritten, success
yields a full board, and conflict-freeness and well-formedness are
preserved. -/
def SolverSound (solver : Grid → Bool × Grid) : Prop :=
  ∀ b : Grid,
    ((solver b).1 = false → (solver b).2 = b) ∧
    (∀ r c d, b r c = some d → (solver b).2 r c = some d) ∧
    ((solver b).1 = true → fullGrid (solver b).2) ∧
    (noDup b → noDup (solver b).2) ∧
    (wellFormed b → wellFormed (solver b).2)

theorem tryNums_sound (solver : Grid → Bool × Grid)
    (hs : SolverSound solver) :
    ∀ (nums : List Nat) (g : Grid) (r c : Fin 9), g r c = none →
      (∀ m ∈ nums, 1 ≤ m ∧ m ≤ 9) →
      (((tryNums solver g r c nums).1 = false →
          (tryNums solver g r c nums).2 = g) ∧
        (∀ a b d, g a b = some d →
          (tryNums solver g r c nums).2 a b = some d) ∧
        ((tryNums solver g r c nums).1 = true →
          fullGrid (tryNums solver g r c nums).2) ∧
        (noDup g → noDup (tryNums solver g r c nums).2) ∧
        (wellFormed g → wellFormed (tryNums solver g r c nums).2)) := by
  intro nums
  induction nums with
  | nil =>
    intro g r c hg _
    refine ⟨fun _ => rfl, fun a b d hd => hd, fun h => absurd h (by simp [tryNums]), fun h => h, fun h => h⟩
  | cons num rest ih =>
    intro g r c hg hnums
    have hnum := hnums num (List.mem_cons_self _ _)
    have hrest : ∀ m ∈ rest, 1 ≤ m ∧ m ≤ 9 :=
      fun m hm => hnums m (List.mem_cons_of_mem _ hm)
    by_cases hvp : isValidPlacement g r c num
    · rcases hres : solver (setCell g r c (some num)) with ⟨ok, b'⟩
      cases ok with
      | true =>
        have heq : tryNums solver g r c (num :: rest) = (true, b') := by
          simp only [tryNums, hvp, if_true, hres]
        rw [heq]
        have hset := hs (setCell g r c (some num))
        rw [hres] at hset
        refine ⟨fun h => absurd h (by simp), ?_, ?_, ?_, ?_⟩
        · intro a b d hd
          apply hset.2.1
          by_cases hp : a = r ∧ b = c
          · obtain ⟨rfl, rfl⟩ := hp
            rw [hg] at hd
            exact absurd hd (by simp)
          · rwa [setCell_miss _ _ _ _ _ _ hp]
        · intro _
          exact hset.2.2.1 rfl
        · intro hnd
          exact hset.2.2.2.1
            (placement_preserves_noDup g r c num hg hvp hnd)
        · intro hwf
          exact hset.2.2.2.2
            (placement_preserves_wellFormed g r c num hnum.1 hnum.2 hwf)
      | false =>
        have hset := hs (setCell g r c (some num))
        rw [hres] at hset
        have hb' : b' = setCell g r c (some num) := hset.1 rfl
        have hcancel : setCell b' r c none = g := by
          rw [hb']
          exact setCell_cancel g r c (some num) hg
        have heq : tryNums solver g r c (num :: rest)
            = tryNums solver g r c rest := by
          simp only [tryNums, hvp, if_true, hres, hcancel]
        rw [heq]
        exact ih g r c hg hrest
    · have heq : tryNums solver g r c (num :: rest)
          = tryNums solver g r c rest := by
        simp only [tryNums]
        rw [if_neg hvp]
      rw [heq]
      exact ih g r c hg hrest

theorem solveGo_sound : ∀ fuel : Nat, SolverSound (solveGo fuel) := by
  intro fuel
  induction fuel with
  | zero =>
    intro g
    rcases hfe : findEmptyCell g with _ | rc
    · have heq : solveGo 0 g = (true, g) := by
        simp only [solveGo, hfe]
      rw [heq]
      exact ⟨fun h => rfl, fun _ _ _ hd => hd,
        fun _ => (findEmptyCell_eq_none_iff g).mp hfe,
        fun h => h, fun h => h⟩
    · have heq : solveGo 0 g = (false, g) := by
        simp only [solveGo, hfe]
      rw [heq]
      exact ⟨fun _ => rfl, fun _ _ _ hd => hd,
        fun h => absurd h (by simp), fun h => h, fun h => h⟩
  | succ fuel ih =>
    intro g
    rcases hfe : findEmptyCell g with _ | rc
    · have heq : solveGo (fuel + 1) g = (true, g) := by
        simp only [solveGo, hfe]
      rw [heq]
      exact ⟨fun h => rfl, fun _ _ _ hd => hd,
        fun _ => (findEmptyCell_eq_none_iff g).mp hfe,
        fun h => h, fun h => h⟩
    · have heq : solveGo (fuel + 1) g
          = tryNums (solveGo fuel) g rc.1 rc.2 candidateNums := by
        simp only [solveGo, hfe]
      rw [heq]
      exact tryNums_sound (solveGo fuel) ih candidateNums g rc.1 rc.2
        (findEmptyCell_some g rc hfe) (by decide)

theorem solveSudoku_sound : SolverSound solveSudoku := by
  intro g
  exact solveGo_sound (emptyCount g) g

/-! ## Solver completeness -/

theorem tryNums_complete (solver : Grid → Bool × Grid) (F : Nat)
    (hrestore : ∀ b, (solver b).1 = false → (solver b).2 = b)
    (hcomplete : ∀ b : Grid, emptyCount b ≤ F →
      (∃ S, gridLE b S ∧ fullGrid S ∧ noDup S ∧ wellFormed S) →
      (solver b).1 = true) :
    ∀ (nums : List Nat) (g : Grid) (r c : Fin 9), g r c = none →
      emptyCount g ≤ F + 1 →
      (∃ num, num ∈ nums ∧ isValidPlacement g r c num = true ∧
        ∃ S, gridLE (setCell g r c (some num)) S ∧ fullGrid S ∧
          noDup S ∧ wellFormed S) →
      (tryNums solver g r c nums).1 = true := by
  intro nums
  induction nums with
  | nil =>
    intro g r c _ _ hex
    obtain ⟨num, hmem, _⟩ := hex
    exact absurd hmem (List.not_mem_nil num)
  | cons num0 rest ih =>
    intro g r c hg hec hex
    obtain ⟨num, hmem, hvp, S, hS⟩ := hex
    by_cases h0 : isValidPlacement g r c num0
    · rcases hres : solver (setCell g r c (some num0)) with ⟨ok, b'⟩
      cases ok with
      | true =>
        have heq : tryNums solver g r c (num0 :: rest) = (true, b') := by
          simp only [tryNums, h0, if_true, hres]
        rw [heq]
      | false =>
        have hb' : b' = setCell g r c (some num0) := by
          have := hrestore (setCell g r c (some num0))
          rw [hres] at this
          exact this rfl
        have hcancel : setCell b' r c none = g := by
          rw [hb']
          exact setCell_cancel g r c (some num0) hg
        have heq : tryNums solver g r c (num0 :: rest)
            = tryNums solver g r c rest := by
          simp only [tryNums, h0, if_true, hres, hcancel]
        rw [heq]
        have hne : num ≠ num0 := by
          intro hq
          subst hq
          have hsucc : (solver (setCell g r c (some num))).1 = true := by
            apply hcomplete
            · have := emptyCount_setCell_some g r c num hg
              omega
            · exact ⟨S, hS⟩
          rw [hres] at hsucc
          exact absurd hsucc (by simp)
        have hmem' : num ∈ rest := by
          rcases List.mem_cons.mp hmem with hq | hq
          · exact absurd hq hne
          · exact hq
        exact ih g r c hg hec ⟨num, hmem', hvp, S, hS⟩
    · have heq : tryNums solver g r c (num0 :: rest)
          = tryNums solver g r c rest := by
        simp only [tryNums]
        rw [if_neg h0]
      rw [heq]
      have hne : num ≠ num0 := by
        intro hq
        subst hq
        exact h0 hvp
      have hmem' : num ∈ rest := by
        rcases List.mem_cons.mp hmem with hq | hq
        · exact absurd hq hne
        · exact hq
      exact ih g r c hg hec ⟨num, hmem', hvp, S, hS⟩

theorem mem_candidateNums (d : Nat) (h1 : 1 ≤ d) (h9 : d ≤ 9) :
    d ∈ candidateNums := by
  simp only [candidateNums, List.mem_cons, List.not_mem_nil, or_false]
  omega

theorem solveGo_complete : ∀ (fuel : Nat) (g : Grid),
    emptyCount g ≤ fuel →
    (∃ S, gridLE g S ∧ fullGrid S ∧ noDup S ∧ wellFormed S) →
    (solveGo fuel g).1 = true := by
  intro fuel
  induction fuel with
  | zero =>
    intro g hec _
    have hfe : findEmptyCell g = none := emptyCount_zero_full g (by omega)
    simp only [solveGo, hfe]
  | succ fuel ih =>
    intro g hec hex
    rcases hfe : findEmptyCell g with _ | rc
    · simp only [solveGo, hfe]
    · have heq : solveGo (fuel + 1) g
          = tryNums (solveGo fuel) g rc.1 rc.2 candidateNums := by
        simp only [solveGo, hfe]
      rw [heq]
      have hg : g rc.1 rc.2 = none := findEmptyCell_some g rc hfe
      obtain ⟨S, hle, hfull, hnd, hwf⟩ := hex
      obtain ⟨d, hd⟩ := Option.ne_none_iff_exists'.mp (hfull rc.1 rc.2)
      have hd19 : 1 ≤ d ∧ d ≤ 9 := by
        have := hwf rc.1 rc.2
        rw [hd] at this
        exact this
      apply tryNums_complete (solveGo fuel) fuel
        (fun b => (solveGo_sound fuel b).1) ih candidateNums g rc.1 rc.2 hg hec
      refine ⟨d, mem_candidateNums d hd19.1 hd19.2, ?_, S, ?_, hfull, hnd, hwf⟩
      · rw [isValidPlacement_iff]
        intro r' c' hrel hsome
        have hS' : S r' c' = some d := hle r' c' d hsome
        have hne : ¬(r' = rc.1 ∧ c' = rc.2) := by
          intro hq
          obtain ⟨rfl, rfl⟩ := hq
          rw [hg] at hsome
          exact absurd hsome (by simp)
        have hpeers : peers rc.1 rc.2 r' c' := by
          constructor
          · by_cases h1 : rc.1 = r'
            · right
              intro h2
              exact hne ⟨h1.symm, h2.symm⟩
            · left
              exact h1
          · rcases hrel with h | h | h
            · exact Or.inl h.symm
            · exact Or.inr (Or.inl h.symm)
            · exact Or.inr (Or.inr h)
        exact hnd rc.1 rc.2 r' c' hpeers (by simp [hd]) (by rw [hd, hS'])
      · intro a b e he
        by_cases hp : a = rc.1 ∧ b = rc.2
        · obtain ⟨rfl, rfl⟩ := hp
          rw [setCell_hit] at he
          rw [he] at hd
          exact hd
        · rw [setCell_miss _ _ _ _ _ _ hp] at he
          exact hle a b e he

theorem solveSudoku_complete (g : Grid)
    (hex : ∃ S, gridLE g S ∧ fullGrid S ∧ noDup S ∧ wellFormed S) :
    (solveSudoku g).1 = true :=
  solveGo_complete (emptyCount g) g (le_refl _) hex

/-! ## Full conflict-free grids contain each digit exactly once per group -/

theorem group_exactly_once (g : Grid) (hf : fullGrid g) (hn : noDup g)
    (hw : wellFormed g) (cell : Fin 9 → Fin 9 × Fin 9)
    (hpeers : ∀ p q : Fin 9, p ≠ q →
      peers (cell p).1 (cell p).2 (cell q).1 (cell q).2)
    (d : Nat) (hd1 : 1 ≤ d) (hd9 : d ≤ 9) :
    ∃! p : Fin 9, g (cell p).1 (cell p).2 = some d := by
  have hval : ∀ p : Fin 9, ∃ e, g (cell p).1 (cell p).2 = some e ∧
      1 ≤ e ∧ e ≤ 9 := by
    intro p
    obtain ⟨e, he⟩ :=
      Option.ne_none_iff_exists'.mp (hf (cell p).1 (cell p).2)
    have hb := hw (cell p).1 (cell p).2
    rw [he] at hb
    exact ⟨e, he, hb⟩
  choose e he h1 h9 using hval
  have hdiff : ∀ p q : Fin 9, p ≠ q → e p ≠ e q := by
    intro p q hpq hee
    have := hn (cell p).1 (cell p).2 (cell q).1 (cell q).2
      (hpeers p q hpq) (by simp [he p])
    rw [he p, he q, hee] at this
    exact this rfl
  have hinj : Function.Injective
      (fun p : Fin 9 => (⟨e p - 1, by have := h1 p; have := h9 p; omega⟩
        : Fin 9)) := by
    intro p q hpq
    by_contra hne
    have h1p := h1 p
    have h1q := h1 q
    have : e p - 1 = e q - 1 := congrArg Fin.val hpq
    exact hdiff p q hne (by omega)
  have hsurj := Finite.injective_iff_surjective.mp hinj
  obtain ⟨p, hp⟩ := hsurj ⟨d - 1, by omega⟩
  have hpd : e p = d := by
    have : e p - 1 = d - 1 := congrArg Fin.val hp
    have := h1 p
    omega
  refine ⟨p, by rw [← hpd]; exact he p, ?_⟩
  intro q hq
  by_contra hne
  have : e q = d := by
    have := he q
    rw [hq] at this
    exact (Option.some.inj this).symm
  exact hdiff q p hne (by rw [this, hpd])

theorem peers_row (r p q : Fin 9) (h : p ≠ q) : peers r p r q := by
  refine ⟨Or.inr h, Or.inl rfl⟩

theorem peers_col (c p q : Fin 9) (h : p ≠ q) : peers p c q c := by
  refine ⟨Or.inl h, Or.inr (Or.inl rfl)⟩

theorem boxCell_inj (b p q : Fin 9)
    (hr : boxCellR b p = boxCellR b q) (hc : boxCellC b p = boxCellC b q) :
    p = q := by
  have hrv : 3 * (b.val / 3) + p.val / 3 = 3 * (b.val / 3) + q.val / 3 :=
    congrArg Fin.val hr
  have hcv : 3 * (b.val % 3) + p.val % 3 = 3 * (b.val % 3) + q.val % 3 :=
    congrArg Fin.val hc
  have hp := p.2
  have hq := q.2
  apply Fin.ext
  omega

theorem peers_box (b p q : Fin 9) (h : p ≠ q) :
    peers (boxCellR b p) (boxCellC b p) (boxCellR b q) (boxCellC b q) := by
  constructor
  · by_cases hr : boxCellR b p = boxCellR b q
    · right
      intro hc
      exact h (boxCell_inj b p q hr hc)
    · left
      exact hr
  · right; right
    have hb := b.2
    have hp := p.2
    have hq := q.2
    constructor
    · show (3 * (b.val / 3) + p.val / 3) / 3 = (3 * (b.val / 3) + q.val / 3) / 3
      omega
    · show (3 * (b.val % 3) + p.val % 3) / 3 = (3 * (b.val % 3) + q.val % 3) / 3
      omega

/-! ## Claim theorems: the Solver -/

/-- **C1.** For every 9×9 grid (cells empty or 1–9, per the data model) free
of pre-existing conflicts, if `solveSudoku` returns `true` then the
resulting board is completely filled, every row, column and 3×3 box
contains each digit 1–9 exactly once, and every cell that was non-empty
before the call still holds its original value. -/
theorem C1_solver_correct (g : Grid) (hw : wellFormed g) (hn : noDup g)
    (hs : (solveSudoku g).1 = true) :
    (∀ r c, (solveSudoku g).2 r c ≠ none) ∧
    (∀ d, 1 ≤ d → d ≤ 9 →
      (∀ r, ∃! c, (solveSudoku g).2 r c = some d) ∧
      (∀ c, ∃! r, (solveSudoku g).2 r c = some d) ∧
      (∀ b, ∃! p,
        (solveSudoku g).2 (boxCellR b p) (boxCellC b p) = some d)) ∧
    (∀ r c d, g r c = some d → (solveSudoku g).2 r c = some d) := by
  have hsound := solveSudoku_sound g
  have hfull : fullGrid (solveSudoku g).2 := hsound.2.2.1 hs
  have hnd : noDup (solveSudoku g).2 := hsound.2.2.2.1 hn
  have hwf : wellFormed (solveSudoku g).2 := hsound.2.2.2.2 hw
  refine ⟨hfull, ?_, hsound.2.1⟩
  intro d hd1 hd9
  refine ⟨?_, ?_, ?_⟩
  · intro r
    exact group_exactly_once (solveSudoku g).2 hfull hnd hwf
      (fun p => (r, p)) (fun p q h => peers_row r p q h) d hd1 hd9
  · intro c
    exact group_exactly_once (solveSudoku g).2 hfull hnd hwf
      (fun p => (p, c)) (fun p q h => peers_col c p q h) d hd1 hd9
  · intro b
    exact group_exactly_once (solveSudoku g).2 hfull hnd hwf
      (fun p => (boxCellR b p, boxCellC b p))
      (fun p q h => peers_box b p q h) d hd1 hd9

/-- Witness for C1: a concrete conflict-free grid with one empty cell on
which the solver succeeds; the hypotheses are established by computation
and the conclusion follows from the theorem. -/
theorem C1_solver_correct_witness :
    wellFormed gAlmost ∧ noDup gAlmost ∧ (solveSudoku gAlmost).1 = true ∧
      ((∀ r c, (solveSudoku gAlmost).2 r c ≠ none) ∧
        (∀ d, 1 ≤ d → d ≤ 9 →
          (∀ r, ∃! c, (solveSudoku gAlmost).2 r c = some d) ∧
          (∀ c, ∃! r, (solveSudoku gAlmost).2 r c = some d) ∧
          (∀ b, ∃! p, (solveSudoku gAlmost).2 (boxCellR b p) (boxCellC b p)
            = some d)) ∧
        (∀ r c d, gAlmost r c = some d →
          (solveSudoku gAlmost).2 r c = some d)) :=
  ⟨by decide, by decide, by decide,
    C1_solver_correct gAlmost (by decide) (by decide) (by decide)⟩

/-- **C4.** For every 9×9 grid, if `solveSudoku` returns `false` then the
grid's content after the call is identical to its content before the call:
every speculative assignment made during backtracking has been undone. -/
theorem C4_solver_restores_on_failure (g : Grid)
    (h : (solveSudoku g).1 = false) : (solveSudoku g).2 = g :=
  (solveSudoku_sound g).1 h

/-- Witness for C4: a concrete unsolvable grid; the solver fails on it and
the returned board is the input board. -/
theorem C4_solver_restores_on_failure_witness :
    (solveSudoku gBad).1 = false ∧ (solveSudoku gBad).2 = gBad :=
  ⟨by decide, C4_solver_restores_on_failure gBad (by decide)⟩

/-- **C10.** If cell `(row, col)` itself already holds `num`, then
`isValidPlacement board row col num` returns `false`: the checker does not
exclude the target cell from its own peers. -/
theorem C10_placement_rejects_own_value (g : Grid) (row col : Fin 9)
    (num : Nat) (h : g row col = some num) :
    isValidPlacement g row col num = false := by
  rw [Bool.eq_false_iff]
  intro hvp
  exact (isValidPlacement_iff g row col num).mp hvp row col (Or.inl rfl) h

/-- Witness for C10 at a concrete grid and cell. -/
theorem C10_placement_rejects_own_value_witness :
    gCanon 0 0 = some 1 ∧ isValidPlacement gCanon 0 0 1 = false :=
  ⟨by decide, C10_placement_rejects_own_value gCanon 0 0 1 (by decide)⟩

/-- **C5.** `isValidPlacement` returns `true` exactly when `num` appears in
none of the 9 cells of the row, the 9 cells of the column and the 9 cells
of the box of `(row, col)`; and its result depends on no cell outside
those three groups (grids agreeing on the three groups get the same
answer). -/
theorem C5_placement_contract :
    (∀ (g : Grid) (row col : Fin 9) (num : Nat),
      isValidPlacement g row col num = true ↔
        ∀ r' c' : Fin 9, (r' = row ∨ c' = col ∨ sameBox row col r' c') →
          g r' c' ≠ some num) ∧
    (∀ (g g' : Grid) (row col : Fin 9) (num : Nat),
      (∀ r' c' : Fin 9, (r' = row ∨ c' = col ∨ sameBox row col r' c') →
        g r' c' = g' r' c') →
      isValidPlacement g row col num = isValidPlacement g' row col num) := by
  refine ⟨isValidPlacement_iff, ?_⟩
  intro g g' row col num hagree
  have hrow : ∀ i : Fin 9, g row i = g' row i :=
    fun i => hagree row i (Or.inl rfl)
  have hcol : ∀ i : Fin 9, g i col = g' i col :=
    fun i => hagree i col (Or.inr (Or.inl rfl))
  have hbox : ∀ i : Fin 9,
      g (pBoxRow row i) (pBoxCol col i) = g' (pBoxRow row i) (pBoxCol col i) := by
    intro i
    apply hagree
    right; right
    have hrw := row.2
    have hcl := col.2
    have hi := i.2
    constructor
    · show row.val / 3 = (3 * (row.val / 3) + i.val / 3) / 3
      omega
    · show col.val / 3 = (3 * (col.val / 3) + i.val % 3) / 3
      omega
  rw [Bool.eq_iff_iff]
  simp only [isValidPlacement, List.all_eq_true, List.mem_finRange,
    true_implies]
  constructor
  · intro h i
    rw [← hrow i, ← hcol i, ← hbox i]
    exact h i
  · intro h i
    rw [hrow i, hcol i, hbox i]
    exact h i

/-- Witness for C5's frame half: two concrete grids agreeing on the three
groups of `(0, 0)` but differing at the unrelated cell `(4, 4)` get the
same answer. -/
theorem C5_placement_contract_witness :
    (∀ r' c' : Fin 9, (r' = 0 ∨ c' = 0 ∨ sameBox 0 0 r' c') →
      emptyGrid r' c' = setCell emptyGrid 4 4 (some 5) r' c') ∧
    isValidPlacement emptyGrid 0 0 3
      = isValidPlacement (setCell emptyGrid 4 4 (some 5)) 0 0 3 :=
  ⟨by decide,
    C5_placement_contract.2 emptyGrid (setCell emptyGrid 4 4 (some 5))
      0 0 3 (by decide)⟩

/-! ## The removal loop -/

theorem removeNumbers_success_spec : ∀ (rands : List (Fin 9 × Fin 9))
    (board : Grid) (count removed : Nat) (g' : Grid) (iters : Nat),
    removeNumbers board count removed rands = some (g', iters) →
    filledCount g' + (count - removed) = filledCount board ∧
      count - removed ≤ iters ∧ gridLE g' board := by
  intro rands
  induction rands with
  | nil =>
    intro board count removed g' iters h
    rw [removeNumbers] at h
    by_cases hc : count ≤ removed
    · rw [if_pos hc] at h
      obtain ⟨rfl, rfl⟩ : board = g' ∧ 0 = iters := by
        have h1 := congrArg Prod.fst (Option.some.inj h)
        have h2 := congrArg Prod.snd (Option.some.inj h)
        exact ⟨h1, h2⟩
      refine ⟨by omega, by omega, gridLE_refl _⟩
    · rw [if_neg hc] at h
      exact absurd h (by simp)
  | cons p rest ih =>
    intro board count removed g' iters h
    rw [removeNumbers] at h
    by_cases hc : count ≤ removed
    · rw [if_pos hc] at h
      obtain ⟨rfl, rfl⟩ : board = g' ∧ 0 = iters := by
        have h1 := congrArg Prod.fst (Option.some.inj h)
        have h2 := congrArg Prod.snd (Option.some.inj h)
        exact ⟨h1, h2⟩
      refine ⟨by omega, by omega, gridLE_refl _⟩
    · rw [if_neg hc] at h
      obtain ⟨r, c⟩ := p
      by_cases hfill : (board r c).isSome
      · rw [if_pos hfill] at h
        rcases hrec : removeNumbers (setCell board r c none) count
            (removed + 1) rest with _ | ⟨g'', iters'⟩
        · rw [hrec] at h
          exact absurd h (by simp)
        · rw [hrec] at h
          obtain ⟨rfl, hit⟩ : g'' = g' ∧ iters' + 1 = iters := by
            have h1 := congrArg Prod.fst (Option.some.inj h)
            have h2 := congrArg Prod.snd (Option.some.inj h)
            exact ⟨h1, h2⟩
          obtain ⟨ihf, ihi, ihle⟩ := ih _ _ _ _ _ hrec
          have hne : board r c ≠ none := by
            intro hq
            rw [hq] at hfill
            exact absurd hfill (by simp)
          have hfc := filledCount_setCell_none board r c hne
          refine ⟨by omega, by omega,
            gridLE_trans _ _ _ ihle (gridLE_setCell_none board r c)⟩
      · rw [if_neg hfill] at h
        rcases hrec : removeNumbers board count removed rest
            with _ | ⟨g'', iters'⟩
        · rw [hrec] at h
          exact absurd h (by simp)
        · rw [hrec] at h
          obtain ⟨rfl, hit⟩ : g'' = g' ∧ iters' + 1 = iters := by
            have h1 := congrArg Prod.fst (Option.some.inj h)
            have h2 := congrArg Prod.snd (Option.some.inj h)
            exact ⟨h1, h2⟩
          obtain ⟨ihf, ihi, ihle⟩ := ih _ _ _ _ _ hrec
          exact ⟨ihf, by omega, ihle⟩

theorem removeNumbers_distinct_success : ∀ (rands : List (Fin 9 × Fin 9))
    (board : Grid) (count removed : Nat), rands.Nodup →
    (∀ p ∈ rands, board p.1 p.2 ≠ none) →
    count ≤ removed + rands.length →
    ∃ g' iters, removeNumbers board count removed rands = some (g', iters) := by
  intro rands
  induction rands with
  | nil =>
    intro board count removed _ _ hlen
    refine ⟨board, 0, ?_⟩
    rw [removeNumbers, if_pos (by simpa using hlen)]
  | cons p rest ih =>
    intro board count removed hnd hfill hlen
    by_cases hc : count ≤ removed
    · refine ⟨board, 0, ?_⟩
      rw [removeNumbers, if_pos hc]
    · obtain ⟨r, c⟩ := p
      have hrc : board r c ≠ none := hfill (r, c) (List.mem_cons_self _ _)
      have hsome : (board r c).isSome := by
        rw [Option.isSome_iff_ne_none]
        exact hrc
      have hrest : ∀ q ∈ rest, setCell board r c none q.1 q.2 ≠ none := by
        intro q hq
        have hqne : q ≠ (r, c) := by
          intro hqq
          rw [hqq] at hq
          exact (List.nodup_cons.mp hnd).1 hq
        have : ¬(q.1 = r ∧ q.2 = c) := by
          intro hqq
          exact hqne (Prod.ext hqq.1 hqq.2)
        rw [setCell_miss _ _ _ _ _ _ this]
        exact hfill q (List.mem_cons_of_mem _ hq)
      obtain ⟨g', iters, hrec⟩ := ih (setCell board r c none) count
        (removed + 1) (List.nodup_cons.mp hnd).2 hrest
        (by simp only [List.length_cons] at hlen; omega)
      refine ⟨g', iters + 1, ?_⟩
      rw [removeNumbers, if_neg hc, if_pos hsome, hrec]

/-- **C7 counterexample.**  The claim says the removal phase clears one
cell per step and finishes in exactly `count` steps for *any* draw
sequence.  With draws `(0,0), (0,0)` on a full board and `count = 2`, the
second draw lands on the already-cleared cell and clears nothing, so after
two draws only one cell is cleared and the loop is still running (our
finite-stream model returns `none`). -/
theorem C7_counterexample :
    removeNumbers gCanon 2 0 [(0, 0), (0, 0)] = none := rfl

/-- **C7 amended.**  Each loop iteration consumes one draw and clears at
most one cell; the loop stops once exactly `count` cells are cleared, so a
terminating run clears exactly `count` cells (all of them previously
filled) and takes at least `count` iterations — but not exactly `count`
for every draw sequence, since draws landing on already-cleared cells add
iterations. -/
theorem C7_removal_loop (board : Grid) (count : Nat)
    (rands : List (Fin 9 × Fin 9)) (g' : Grid) (iters : Nat)
    (h : removeNumbers board count 0 rands = some (g', iters)) :
    filledCount g' + count = filledCount board ∧ count ≤ iters ∧
      gridLE g' board := by
  obtain ⟨h1, h2, h3⟩ := removeNumbers_success_spec rands board count 0
    g' iters h
  exact ⟨by omega, by omega, h3⟩

/-- Witness for C7's amended theorem: one draw on a full board clears one
cell in one iteration. -/
theorem C7_removal_loop_witness :
    removeNumbers gCanon 1 0 [(0, 0)] = some (setCell gCanon 0 0 none, 1) ∧
      (filledCount (setCell gCanon 0 0 none) + 1 = filledCount gCanon ∧
        1 ≤ 1 ∧ gridLE (setCell gCanon 0 0 none) gCanon) :=
  ⟨rfl, C7_removal_loop gCanon 1 [(0, 0)] (setCell gCanon 0 0 none) 1 rfl⟩

/-! ## The solved board produced by the generator -/

theorem emptyGrid_le (S : Grid) : gridLE emptyGrid S := by
  intro r c d h
  exact absurd h (by simp [emptyGrid])

theorem solvedBoard_solved : (solveSudoku emptyGrid).1 = true :=
  solveSudoku_complete emptyGrid
    ⟨gCanon, emptyGrid_le gCanon, by decide, by decide, by decide⟩

theorem solvedBoard_full : fullGrid (solveSudoku emptyGrid).2 :=
  (solveSudoku_sound emptyGrid).2.2.1 solvedBoard_solved

theorem noDup_emptyGrid : noDup emptyGrid := by
  intro r c r' c' _ hne
  exact absurd rfl hne

theorem wellFormed_emptyGrid : wellFormed emptyGrid := by
  intro r c
  show cellInRange none
  decide

theorem solvedBoard_noDup : noDup (solveSudoku emptyGrid).2 :=
  (solveSudoku_sound emptyGrid).2.2.2.1 noDup_emptyGrid

theorem solvedBoard_wellFormed : wellFormed (solveSudoku emptyGrid).2 :=
  (solveSudoku_sound emptyGrid).2.2.2.2 wellFormed_emptyGrid

/-! ## Characterisation of the conflict-marking passes

A "line" is one constraint group read in loop order: row `i` is
`fun t => g i t`, column `i` is `fun t => g t i`, and box `b` is
`boxLine g b`.  `lineFlagged f k y` says position `y` of the line is a
duplicate among the first `k` positions — exactly the set of positions the
marking loop has flagged after processing indices `< k`. -/

/-- Box `b` of `g` read in the sub-grid loop's row-major order. -/
def boxLine (g : Grid) (b : Fin 9) : Fin 9 → Option Nat :=
  fun p => g (boxCellR b p) (boxCellC b p)

/-- Position `y` holds a value that occurs at least twice among the first
`k` positions of the line `f` (and `y` itself lies below `k`). -/
def lineFlagged (f : Fin 9 → Option Nat) (k : Nat) (y : Fin 9) : Prop :=
  y.val < k ∧ ∃ v, f y = some v ∧
    ∃ y' : Fin 9, y'.val < k ∧ y' ≠ y ∧ f y' = some v

/-- Position `y` holds a value that occurs elsewhere in the line `f`. -/
def lineDup (f : Fin 9 → Option Nat) (y : Fin 9) : Prop :=
  ∃ v, f y = some v ∧ ∃ y' : Fin 9, y' ≠ y ∧ f y' = some v

/-- First-occurrence invariant of a `Map` entry: a stored index is a
below-`k` occurrence with nothing equal before it. -/
def mapLo (f : Fin 9 → Option Nat) (k : Nat) (m : NMap) : Prop :=
  ∀ v j0, m v = some j0 → j0.val < k ∧ f j0 = some v ∧
    ∀ j' : Fin 9, j'.val < j0.val → f j' ≠ some v

/-- Completeness invariant of a `Map`: an absent value has no occurrence
below `k`. -/
def mapHi (f : Fin 9 → Option Nat) (k : Nat) (m : NMap) : Prop :=
  ∀ v, m v = none → ∀ j' : Fin 9, j'.val < k → f j' ≠ some v

/-- `pmapLo`, `pmapHi`: the same invariants for the sub-grid map, which
stores the first-occurrence cell `[r, c]` of box `b` instead of the loop
index. -/
def pmapLo (g : Grid) (b : Fin 9) (k : Nat) (m : PMap) : Prop :=
  ∀ v rc, m v = some rc → ∃ p0 : Fin 9,
    rc = (boxCellR b p0, boxCellC b p0) ∧ p0.val < k ∧
      boxLine g b p0 = some v ∧
      ∀ p' : Fin 9, p'.val < p0.val → boxLine g b p' ≠ some v

/-- See `pmapLo`. -/
def pmapHi (g : Grid) (b : Fin 9) (k : Nat) (m : PMap) : Prop :=
  ∀ v, m v = none → ∀ p' : Fin 9, p'.val < k → boxLine g b p' ≠ some v

theorem lineFlagged_mono (f : Fin 9 → Option Nat) (k k' : Nat) (y : Fin 9)
    (hk : k ≤ k') (h : lineFlagged f k y) : lineFlagged f k' y := by
  obtain ⟨hy, v, hv, y', hy', hne, hv'⟩ := h
  exact ⟨by omega, v, hv, y', by omega, hne, hv'⟩

theorem lineFlagged_zero (f : Fin 9 → Option Nat) (y : Fin 9) :
    ¬ lineFlagged f 0 y := by
  intro h
  exact absurd h.1 (by omega)

theorem lineFlagged_nine_iff (f : Fin 9 → Option Nat) (y : Fin 9) :
    lineFlagged f 9 y ↔ lineDup f y := by
  constructor
  · rintro ⟨_, v, hv, y', _, hne, hv'⟩
    exact ⟨v, hv, y', hne, hv'⟩
  · rintro ⟨v, hv, y', hne, hv'⟩
    exact ⟨y.2, v, hv, y', y'.2, hne, hv'⟩

theorem lineFlagged_step_none (f : Fin 9 → Option Nat) (j : Nat)
    (jj : Fin 9) (hjj : jj.val = j) (hf : f jj = none) (y : Fin 9) :
    lineFlagged f (j + 1) y ↔ lineFlagged f j y := by
  constructor
  · rintro ⟨hy, v, hv, y', hy', hne, hv'⟩
    have hyj : y.val ≠ j := by
      intro hq
      have : y = jj := Fin.ext (by omega)
      rw [this, hf] at hv
      exact absurd hv (by simp)
    have hy'j : y'.val ≠ j := by
      intro hq
      have : y' = jj := Fin.ext (by omega)
      rw [this, hf] at hv'
      exact absurd hv' (by simp)
    exact ⟨by omega, v, hv, y', by omega, hne, hv'⟩
  · exact lineFlagged_mono f j (j + 1) y (by omega)

theorem lineFlagged_step_dup (f : Fin 9 → Option Nat) (j : Nat)
    (jj : Fin 9) (hjj : jj.val = j) (v0 : Nat) (hf : f jj = some v0)
    (j0 : Fin 9) (hj0 : j0.val < j) (hfj0 : f j0 = some v0)
    (y : Fin 9) :
    lineFlagged f (j + 1) y ↔ lineFlagged f j y ∨ y = j0 ∨ y = jj := by
  constructor
  · rintro ⟨hy, v, hv, y', hy', hne, hv'⟩
    by_cases hyj : y.val = j
    · right; right
      exact Fin.ext (by omega)
    · by_cases hy'j : y'.val = j
      · have hy'jj : y' = jj := Fin.ext (by omega)
        rw [hy'jj, hf] at hv'
        have hvv : v = v0 := (Option.some.inj hv').symm
        subst hvv
        by_cases hyj0 : y = j0
        · right; left
          exact hyj0
        · left
          refine ⟨by omega, v, hv, j0, by omega, ?_, hfj0⟩
          intro hq
          exact hyj0 hq.symm
      · left
        exact ⟨by omega, v, hv, y', by omega, hne, hv'⟩
  · rintro (h | rfl | rfl)
    · exact lineFlagged_mono f j (j + 1) y (by omega) h
    · refine ⟨by omega, v0, hfj0, jj, by omega, ?_, hf⟩
      intro hq
      have := congrArg Fin.val hq
      omega
    · refine ⟨by omega, v0, hf, j0, by omega, ?_, hfj0⟩
      intro hq
      have := congrArg Fin.val hq
      omega

theorem lineFlagged_step_first (f : Fin 9 → Option Nat) (j : Nat)
    (jj : Fin 9) (hjj : jj.val = j) (v0 : Nat) (hf : f jj = some v0)
    (hno : ∀ j' : Fin 9, j'.val < j → f j' ≠ some v0) (y : Fin 9) :
    lineFlagged f (j + 1) y ↔ lineFlagged f j y := by
  constructor
  · rintro ⟨hy, v, hv, y', hy', hne, hv'⟩
    by_cases hyj : y.val = j
    · have hyjj : y = jj := Fin.ext (by omega)
      rw [hyjj, hf] at hv
      have hvv : v = v0 := (Option.some.inj hv).symm
      rw [hvv] at hv'
      have hy'j : y'.val ≠ j := by
        intro hq
        exact hne (Fin.ext (by omega))
      exact absurd hv' (hno y' (by omega))
    · by_cases hy'j : y'.val = j
      · have hy'jj : y' = jj := Fin.ext (by omega)
        rw [hy'jj, hf] at hv'
        have hvv : v = v0 := (Option.some.inj hv').symm
        rw [hvv] at hv
        exact absurd hv (hno y (by omega))
      · exact ⟨by omega, v, hv, y', by omega, hne, hv'⟩
  · exact lineFlagged_mono f j (j + 1) y (by omega)

theorem markConflict_iff (conf : Conflicts) (a b x y : Fin 9) :
    markConflict conf a b x y = true ↔ (x = a ∧ y = b) ∨ conf x y = true := by
  unfold markConflict
  by_cases h : x = a ∧ y = b
  · simp [h]
  · simp [h]

theorem mapLo_mono (f : Fin 9 → Option Nat) (k k' : Nat) (m : NMap)
    (hk : k ≤ k') (h : mapLo f k m) : mapLo f k' m := by
  intro v j0 hm
  obtain ⟨h1, h2, h3⟩ := h v j0 hm
  exact ⟨by omega, h2, h3⟩

theorem rcStep1_spec (g : Grid) (i jj : Fin 9) (conf : Conflicts)
    (rm : NMap) (j : Nat) (hjj : jj.val = j)
    (hLo : mapLo (fun t => g i t) j rm) (hHi : mapHi (fun t => g i t) j rm)
    (P : Fin 9 → Fin 9 → Prop)
    (hconf : ∀ x y, conf x y = true ↔
      P x y ∨ (x = i ∧ lineFlagged (fun t => g i t) j y)) :
    (∀ x y, (rcStep1 g i jj conf rm).1 x y = true ↔
      P x y ∨ (x = i ∧ lineFlagged (fun t => g i t) (j + 1) y)) ∧
    mapLo (fun t => g i t) (j + 1) (rcStep1 g i jj conf rm).2 ∧
    mapHi (fun t => g i t) (j + 1) (rcStep1 g i jj conf rm).2 := by
  rcases hgv : g i jj with _ | v0
  · have hres : rcStep1 g i jj conf rm = (conf, rm) := by
      simp only [rcStep1, hgv]
    rw [hres]
    refine ⟨?_, mapLo_mono _ j (j + 1) rm (by omega) hLo, ?_⟩
    · intro x y
      rw [hconf x y,
        lineFlagged_step_none (fun t => g i t) j jj hjj hgv y]
    · intro v hv j' hj'
      by_cases hq : j'.val = j
      · have : j' = jj := Fin.ext (by omega)
        rw [this]
        simp [hgv]
      · exact hHi v hv j' (by omega)
  · rcases hmv : rm v0 with _ | j0
    · have hres : rcStep1 g i jj conf rm = (conf, nset rm v0 jj) := by
        simp only [rcStep1, hgv, hmv]
      rw [hres]
      refine ⟨?_, ?_, ?_⟩
      · intro x y
        rw [hconf x y,
          lineFlagged_step_first (fun t => g i t) j jj hjj v0 hgv
            (fun j' hj' => hHi v0 hmv j' hj') y]
      · intro v j0 hm
        replace hm : nset rm v0 jj v = some j0 := hm
        unfold nset at hm
        by_cases hq : v = v0
        · rw [if_pos hq] at hm
          have : j0 = jj := (Option.some.inj hm).symm
          subst this
          subst hq
          refine ⟨by omega, hgv, ?_⟩
          intro j' hj'
          exact hHi v hmv j' (by omega)
        · rw [if_neg hq] at hm
          obtain ⟨h1, h2, h3⟩ := hLo v j0 hm
          exact ⟨by omega, h2, h3⟩
      · intro v hv j' hj'
        replace hv : nset rm v0 jj v = none := hv
        unfold nset at hv
        by_cases hq : v = v0
        · rw [if_pos hq] at hv
          exact absurd hv (by simp)
        · rw [if_neg hq] at hv
          by_cases hj : j'.val = j
          · have : j' = jj := Fin.ext (by omega)
            rw [this]
            show ¬ g i jj = some v
            rw [hgv]
            intro hc
            exact hq (Option.some.inj hc).symm
          · exact hHi v hv j' (by omega)
    · have hres : rcStep1 g i jj conf rm
          = (markConflict (markConflict conf i j0) i jj, rm) := by
        simp only [rcStep1, hgv, hmv]
      rw [hres]
      obtain ⟨hj0, hfj0, hmin⟩ := hLo v0 j0 hmv
      have hflag := lineFlagged_step_dup (fun t => g i t) j jj hjj v0 hgv
        j0 hj0 hfj0
      refine ⟨?_, mapLo_mono _ j (j + 1) rm (by omega) hLo, ?_⟩
      · intro x y
        rw [markConflict_iff, markConflict_iff, hconf x y, hflag y]
        constructor
        · rintro (⟨rfl, rfl⟩ | ⟨rfl, rfl⟩ | hP | ⟨rfl, hfl⟩)
          · exact Or.inr ⟨rfl, Or.inr (Or.inr rfl)⟩
          · exact Or.inr ⟨rfl, Or.inr (Or.inl rfl)⟩
          · exact Or.inl hP
          · exact Or.inr ⟨rfl, Or.inl hfl⟩
        · rintro (hP | ⟨rfl, hfl | rfl | rfl⟩)
          · exact Or.inr (Or.inr (Or.inl hP))
          · exact Or.inr (Or.inr (Or.inr ⟨rfl, hfl⟩))
          · exact Or.inr (Or.inl ⟨rfl, rfl⟩)
          · exact Or.inl ⟨rfl, rfl⟩
      · intro v hv j' hj'
        replace hv : rm v = none := hv
        have hq : v ≠ v0 := by
          intro hq
          rw [hq, hmv] at hv
          exact absurd hv (by simp)
        by_cases hj : j'.val = j
        · have : j' = jj := Fin.ext (by omega)
          rw [this]
          show ¬ g i jj = some v
          rw [hgv]
          intro hc
          exact hq (Option.some.inj hc).symm
        · exact hHi v hv j' (by omega)

theorem rcStep2_spec (g : Grid) (i jj : Fin 9) (conf : Conflicts)
    (cm : NMap) (j : Nat) (hjj : jj.val = j)
    (hLo : mapLo (fun t => g t i) j cm) (hHi : mapHi (fun t => g t i) j cm)
    (P : Fin 9 → Fin 9 → Prop)
    (hconf : ∀ x y, conf x y = true ↔
      P x y ∨ (y = i ∧ lineFlagged (fun t => g t i) j x)) :
    (∀ x y, (rcStep2 g i jj conf cm).1 x y = true ↔
      P x y ∨ (y = i ∧ lineFlagged (fun t => g t i) (j + 1) x)) ∧
    mapLo (fun t => g t i) (j + 1) (rcStep2 g i jj conf cm).2 ∧
    mapHi (fun t => g t i) (j + 1) (rcStep2 g i jj conf cm).2 := by
  rcases hgv : g jj i with _ | v0
  · have hres : rcStep2 g i jj conf cm = (conf, cm) := by
      simp only [rcStep2, hgv]
    rw [hres]
    refine ⟨?_, mapLo_mono _ j (j + 1) cm (by omega) hLo, ?_⟩
    · intro x y
      rw [hconf x y,
        lineFlagged_step_none (fun t => g t i) j jj hjj hgv x]
    · intro v hv j' hj'
      by_cases hq : j'.val = j
      · have : j' = jj := Fin.ext (by omega)
        rw [this]
        simp [hgv]
      · exact hHi v hv j' (by omega)
  · rcases hmv : cm v0 with _ | j0
    · have hres : rcStep2 g i jj conf cm = (conf, nset cm v0 jj) := by
        simp only [rcStep2, hgv, hmv]
      rw [hres]
      refine ⟨?_, ?_, ?_⟩
      · intro x y
        rw [hconf x y,
          lineFlagged_step_first (fun t => g t i) j jj hjj v0 hgv
            (fun j' hj' => hHi v0 hmv j' hj') x]
      · intro v j0 hm
        replace hm : nset cm v0 jj v = some j0 := hm
        unfold nset at hm
        by_cases hq : v = v0
        · rw [if_pos hq] at hm
          have : j0 = jj := (Option.some.inj hm).symm
          subst this
          subst hq
          refine ⟨by omega, hgv, ?_⟩
          intro j' hj'
          exact hHi v hmv j' (by omega)
        · rw [if_neg hq] at hm
          obtain ⟨h1, h2, h3⟩ := hLo v j0 hm
          exact ⟨by omega, h2, h3⟩
      · intro v hv j' hj'
        replace hv : nset cm v0 jj v = none := hv
        unfold nset at hv
        by_cases hq : v = v0
        · rw [if_pos hq] at hv
          exact absurd hv (by simp)
        · rw [if_neg hq] at hv
          by_cases hj : j'.val = j
          · have : j' = jj := Fin.ext (by omega)
            rw [this]
            show ¬ g jj i = some v
            rw [hgv]
            intro hc
            exact hq (Option.some.inj hc).symm
          · exact hHi v hv j' (by omega)
    · have hres : rcStep2 g i jj conf cm
          = (markConflict (markConflict conf j0 i) jj i, cm) := by
        simp only [rcStep2, hgv, hmv]
      rw [hres]
      obtain ⟨hj0, hfj0, hmin⟩ := hLo v0 j0 hmv
      have hflag := lineFlagged_step_dup (fun t => g t i) j jj hjj v0 hgv
        j0 hj0 hfj0
      refine ⟨?_, mapLo_mono _ j (j + 1) cm (by omega) hLo, ?_⟩
      · intro x y
        rw [markConflict_iff, markConflict_iff, hconf x y, hflag x]
        constructor
        · rintro (⟨rfl, rfl⟩ | ⟨rfl, rfl⟩ | hP | ⟨rfl, hfl⟩)
          · exact Or.inr ⟨rfl, Or.inr (Or.inr rfl)⟩
          · exact Or.inr ⟨rfl, Or.inr (Or.inl rfl)⟩
          · exact Or.inl hP
          · exact Or.inr ⟨rfl, Or.inl hfl⟩
        · rintro (hP | ⟨rfl, hfl | rfl | rfl⟩)
          · exact Or.inr (Or.inr (Or.inl hP))
          · exact Or.inr (Or.inr (Or.inr ⟨rfl, hfl⟩))
          · exact Or.inr (Or.inl ⟨rfl, rfl⟩)
          · exact Or.inl ⟨rfl, rfl⟩
      · intro v hv j' hj'
        replace hv : cm v = none := hv
        have hq : v ≠ v0 := by
          intro hq
          rw [hq, hmv] at hv
          exact absurd hv (by simp)
        by_cases hj : j'.val = j
        · have : j' = jj := Fin.ext (by omega)
          rw [this]
          show ¬ g jj i = some v
          rw [hgv]
          intro hc
          exact hq (Option.some.inj hc).symm
        · exact hHi v hv j' (by omega)

theorem emptyNMap_lo (f : Fin 9 → Option Nat) : mapLo f 0 emptyNMap := by
  intro v j0 hm
  exact absurd hm (by simp [emptyNMap])

theorem emptyNMap_hi (f : Fin 9 → Option Nat) : mapHi f 0 emptyNMap := by
  intro v _ j' hj'
  exact absurd hj' (by omega)

theorem rcLoop_spec (g : Grid) (i : Fin 9) (P : Fin 9 → Fin 9 → Prop) :
    ∀ (n j : Nat), j + n = 9 → ∀ (conf : Conflicts) (rm cm : NMap),
    mapLo (fun t => g i t) j rm → mapHi (fun t => g i t) j rm →
    mapLo (fun t => g t i) j cm → mapHi (fun t => g t i) j cm →
    (∀ x y, conf x y = true ↔
      P x y ∨ (x = i ∧ lineFlagged (fun t => g i t) j y)
        ∨ (y = i ∧ lineFlagged (fun t => g t i) j x)) →
    ∀ x y, (rcLoop g i j conf rm cm).1 x y = true ↔
      P x y ∨ (x = i ∧ lineFlagged (fun t => g i t) 9 y)
        ∨ (y = i ∧ lineFlagged (fun t => g t i) 9 x) := by
  intro n
  induction n with
  | zero =>
    intro j hj conf rm cm _ _ _ _ hconf x y
    have hj9 : j = 9 := by omega
    subst hj9
    rw [rcLoop, dif_neg (by omega)]
    exact hconf x y
  | succ n ih =>
    intro j hj conf rm cm hrLo hrHi hcLo hcHi hconf x y
    have hj9 : j < 9 := by omega
    rw [rcLoop, dif_pos hj9]
    have hs1 := rcStep1_spec g i ⟨j, hj9⟩ conf rm j rfl hrLo hrHi
      (fun x y => P x y ∨ (y = i ∧ lineFlagged (fun t => g t i) j x))
      (by
        intro x y
        rw [hconf x y]
        tauto)
    have hs2 := rcStep2_spec g i ⟨j, hj9⟩ (rcStep1 g i ⟨j, hj9⟩ conf rm).1
      cm j rfl hcLo hcHi
      (fun x y => P x y ∨ (x = i ∧ lineFlagged (fun t => g i t) (j + 1) y))
      (by
        intro x y
        rw [hs1.1 x y]
        tauto)
    apply ih (j + 1) (by omega) _ _ _ hs1.2.1 hs1.2.2 hs2.2.1 hs2.2.2
    intro x y
    rw [hs2.1 x y]
    tauto

/-- Cell `(x, y)` holds a value that occurs again in row `x`. -/
def rowDup (g : Grid) (x y : Fin 9) : Prop := lineDup (fun t => g x t) y

/-- Cell `(x, y)` holds a value that occurs again in column `y`. -/
def colDup (g : Grid) (x y : Fin 9) : Prop := lineDup (fun t => g t y) x

/-- Cell `(x, y)` holds a value that occurs again in its box. -/
def boxDup (g : Grid) (x y : Fin 9) : Prop :=
  ∃ b p : Fin 9, x = boxCellR b p ∧ y = boxCellC b p ∧
    lineDup (boxLine g b) p

theorem rcPass_spec (g : Grid) : ∀ (n i : Nat), i + n = 9 →
    ∀ conf : Conflicts,
    (∀ x y, conf x y = true ↔
      (x.val < i ∧ rowDup g x y) ∨ (y.val < i ∧ colDup g x y)) →
    ∀ x y, rcPass g i conf x y = true ↔ rowDup g x y ∨ colDup g x y := by
  intro n
  induction n with
  | zero =>
    intro i hi conf hconf x y
    have hi9 : i = 9 := by omega
    subst hi9
    rw [rcPass, dif_neg (by omega)]
    rw [hconf x y]
    constructor
    · rintro (⟨_, h⟩ | ⟨_, h⟩)
      · exact Or.inl h
      · exact Or.inr h
    · rintro (h | h)
      · exact Or.inl ⟨x.2, h⟩
      · exact Or.inr ⟨y.2, h⟩
  | succ n ih =>
    intro i hi conf hconf x y
    have hi9 : i < 9 := by omega
    rw [rcPass, dif_pos hi9]
    have hloop := rcLoop_spec g ⟨i, hi9⟩
      (fun x y => (x.val < i ∧ rowDup g x y) ∨ (y.val < i ∧ colDup g x y))
      9 0 (by omega) conf emptyNMap emptyNMap
      (emptyNMap_lo _) (emptyNMap_hi _) (emptyNMap_lo _) (emptyNMap_hi _)
      (by
        intro x y
        rw [hconf x y]
        constructor
        · intro h
          exact Or.inl h
        · rintro (h | ⟨_, hfl⟩ | ⟨_, hfl⟩)
          · exact h
          · exact absurd hfl (lineFlagged_zero _ _)
          · exact absurd hfl (lineFlagged_zero _ _))
    apply ih (i + 1) (by omega)
    intro x y
    rw [hloop x y]
    constructor
    · rintro ((⟨hx, hd⟩ | ⟨hy, hd⟩) | ⟨rfl, hfl⟩ | ⟨rfl, hfl⟩)
      · exact Or.inl ⟨by omega, hd⟩
      · exact Or.inr ⟨by omega, hd⟩
      · exact Or.inl ⟨by show i < i + 1; omega, (lineFlagged_nine_iff _ _).mp hfl⟩
      · exact Or.inr ⟨by show i < i + 1; omega, (lineFlagged_nine_iff _ _).mp hfl⟩
    · rintro (⟨hx, hd⟩ | ⟨hy, hd⟩)
      · by_cases hxi : x.val < i
        · exact Or.inl (Or.inl ⟨hxi, hd⟩)
        · have : x = (⟨i, hi9⟩ : Fin 9) := Fin.ext (by show x.val = i; omega)
          exact Or.inr (Or.inl ⟨this, (lineFlagged_nine_iff _ _).mpr
            (by rw [this] at hd; exact hd)⟩)
      · by_cases hyi : y.val < i
        · exact Or.inl (Or.inr ⟨hyi, hd⟩)
        · have : y = (⟨i, hi9⟩ : Fin 9) := Fin.ext (by show y.val = i; omega)
          exact Or.inr (Or.inr ⟨this, (lineFlagged_nine_iff _ _).mpr
            (by rw [this] at hd; exact hd)⟩)

theorem emptyPMap_lo (g : Grid) (b : Fin 9) : pmapLo g b 0 emptyPMap := by
  intro v rc hm
  exact absurd hm (by simp [emptyPMap])

theorem emptyPMap_hi (g : Grid) (b : Fin 9) : pmapHi g b 0 emptyPMap := by
  intro v _ p' hp'
  exact absurd hp' (by omega)

theorem boxStep_spec (g : Grid) (b pp : Fin 9) (conf : Conflicts)
    (m : PMap) (j : Nat) (hjj : pp.val = j)
    (hLo : pmapLo g b j m) (hHi : pmapHi g b j m)
    (P : Fin 9 → Fin 9 → Prop)
    (hconf : ∀ x y, conf x y = true ↔ P x y ∨
      (∃ p : Fin 9, x = boxCellR b p ∧ y = boxCellC b p ∧
        lineFlagged (boxLine g b) j p)) :
    (∀ x y, (boxStep g b pp conf m).1 x y = true ↔ P x y ∨
      (∃ p : Fin 9, x = boxCellR b p ∧ y = boxCellC b p ∧
        lineFlagged (boxLine g b) (j + 1) p)) ∧
    pmapLo g b (j + 1) (boxStep g b pp conf m).2 ∧
    pmapHi g b (j + 1) (boxStep g b pp conf m).2 := by
  rcases hgv : g (boxCellR b pp) (boxCellC b pp) with _ | v0
  · have hgv' : boxLine g b pp = none := hgv
    have hres : boxStep g b pp conf m = (conf, m) := by
      simp only [boxStep, hgv]
    rw [hres]
    refine ⟨?_, ?_, ?_⟩
    · intro x y
      rw [hconf x y]
      constructor
      · rintro (hP | ⟨p, h1, h2, hfl⟩)
        · exact Or.inl hP
        · exact Or.inr ⟨p, h1, h2,
            lineFlagged_mono _ j (j + 1) p (by omega) hfl⟩
      · rintro (hP | ⟨p, h1, h2, hfl⟩)
        · exact Or.inl hP
        · exact Or.inr ⟨p, h1, h2,
            (lineFlagged_step_none (boxLine g b) j pp hjj hgv' p).mp hfl⟩
    · intro v rc hm
      replace hm : m v = some rc := hm
      obtain ⟨p0, h1, h2, h3, h4⟩ := hLo v rc hm
      exact ⟨p0, h1, by omega, h3, h4⟩
    · intro v hv p' hp'
      replace hv : m v = none := hv
      by_cases hq : p'.val = j
      · have : p' = pp := Fin.ext (by omega)
        rw [this]
        show ¬ boxLine g b pp = some v
        rw [hgv']
        simp
      · exact hHi v hv p' (by omega)
  · have hgv' : boxLine g b pp = some v0 := hgv
    rcases hmv : m v0 with _ | rc
    · have hres : boxStep g b pp conf m
          = (conf, pset m v0 (boxCellR b pp, boxCellC b pp)) := by
        simp only [boxStep, hgv, hmv]
      rw [hres]
      have hno : ∀ p' : Fin 9, p'.val < j → boxLine g b p' ≠ some v0 :=
        fun p' hp' => hHi v0 hmv p' hp'
      refine ⟨?_, ?_, ?_⟩
      · intro x y
        rw [hconf x y]
        constructor
        · rintro (hP | ⟨p, h1, h2, hfl⟩)
          · exact Or.inl hP
          · exact Or.inr ⟨p, h1, h2,
              lineFlagged_mono _ j (j + 1) p (by omega) hfl⟩
        · rintro (hP | ⟨p, h1, h2, hfl⟩)
          · exact Or.inl hP
          · exact Or.inr ⟨p, h1, h2,
              (lineFlagged_step_first (boxLine g b) j pp hjj v0 hgv'
                hno p).mp hfl⟩
      · intro v rc' hm
        replace hm : pset m v0 (boxCellR b pp, boxCellC b pp) v = some rc' := hm
        unfold pset at hm
        by_cases hq : v = v0
        · rw [if_pos hq] at hm
          subst hq
          refine ⟨pp, (Option.some.inj hm).symm, by omega, hgv', ?_⟩
          intro p' hp'
          exact hno p' (by omega)
        · rw [if_neg hq] at hm
          obtain ⟨p0, h1, h2, h3, h4⟩ := hLo v rc' hm
          exact ⟨p0, h1, by omega, h3, h4⟩
      · intro v hv p' hp'
        replace hv : pset m v0 (boxCellR b pp, boxCellC b pp) v = none := hv
        unfold pset at hv
        by_cases hq : v = v0
        · rw [if_pos hq] at hv
          exact absurd hv (by simp)
        · rw [if_neg hq] at hv
          by_cases hj : p'.val = j
          · have : p' = pp := Fin.ext (by omega)
            rw [this, hgv']
            intro hc
            exact hq (Option.some.inj hc).symm
          · exact hHi v hv p' (by omega)
    · obtain ⟨p0, hrc, hp0, hfp0, hmin⟩ := hLo v0 rc hmv
      have hres : boxStep g b pp conf m
          = (markConflict (markConflict conf rc.1 rc.2)
              (boxCellR b pp) (boxCellC b pp), m) := by
        simp only [boxStep, hgv, hmv]
      rw [hres]
      have hflag := lineFlagged_step_dup (boxLine g b) j pp hjj v0 hgv'
        p0 hp0 hfp0
      refine ⟨?_, ?_, ?_⟩
      · intro x y
        rw [markConflict_iff, markConflict_iff, hconf x y]
        constructor
        · rintro (⟨rfl, rfl⟩ | ⟨rfl, rfl⟩ | hP | ⟨p, h1, h2, hfl⟩)
          · exact Or.inr ⟨pp, rfl, rfl, (hflag pp).mpr (Or.inr (Or.inr rfl))⟩
          · refine Or.inr ⟨p0, ?_, ?_, (hflag p0).mpr (Or.inr (Or.inl rfl))⟩
            · rw [hrc]
            · rw [hrc]
          · exact Or.inl hP
          · exact Or.inr ⟨p, h1, h2,
              lineFlagged_mono _ j (j + 1) p (by omega) hfl⟩
        · rintro (hP | ⟨p, h1, h2, hfl⟩)
          · exact Or.inr (Or.inr (Or.inl hP))
          · rcases (hflag p).mp hfl with hfl' | rfl | rfl
            · exact Or.inr (Or.inr (Or.inr ⟨p, h1, h2, hfl'⟩))
            · refine Or.inr (Or.inl ⟨?_, ?_⟩)
              · rw [h1, hrc]
              · rw [h2, hrc]
            · exact Or.inl ⟨h1, h2⟩
      · intro v rc' hm
        replace hm : m v = some rc' := hm
        obtain ⟨q0, h1, h2, h3, h4⟩ := hLo v rc' hm
        exact ⟨q0, h1, by omega, h3, h4⟩
      · intro v hv p' hp'
        replace hv : m v = none := hv
        have hq : v ≠ v0 := by
          intro hq
          rw [hq, hmv] at hv
          exact absurd hv (by simp)
        by_cases hj : p'.val = j
        · have : p' = pp := Fin.ext (by omega)
          rw [this, hgv']
          intro hc
          exact hq (Option.some.inj hc).symm
        · exact hHi v hv p' (by omega)

theorem boxLoop_spec (g : Grid) (b : Fin 9) (P : Fin 9 → Fin 9 → Prop) :
    ∀ (n j : Nat), j + n = 9 → ∀ (conf : Conflicts) (m : PMap),
    pmapLo g b j m → pmapHi g b j m →
    (∀ x y, conf x y = true ↔ P x y ∨
      (∃ p : Fin 9, x = boxCellR b p ∧ y = boxCellC b p ∧
        lineFlagged (boxLine g b) j p)) →
    ∀ x y, (boxLoop g b j conf m).1 x y = true ↔ P x y ∨
      (∃ p : Fin 9, x = boxCellR b p ∧ y = boxCellC b p ∧
        lineFlagged (boxLine g b) 9 p) := by
  intro n
  induction n with
  | zero =>
    intro j hj conf m _ _ hconf x y
    have hj9 : j = 9 := by omega
    subst hj9
    rw [boxLoop, dif_neg (by omega)]
    exact hconf x y
  | succ n ih =>
    intro j hj conf m hLo hHi hconf x y
    have hj9 : j < 9 := by omega
    rw [boxLoop, dif_pos hj9]
    have hs := boxStep_spec g b ⟨j, hj9⟩ conf m j rfl hLo hHi P hconf
    exact ih (j + 1) (by omega) _ _ hs.2.1 hs.2.2 hs.1 x y

theorem boxPass_spec (g : Grid) (P : Fin 9 → Fin 9 → Prop) :
    ∀ (n bi : Nat), bi + n = 9 → ∀ conf : Conflicts,
    (∀ x y, conf x y = true ↔ P x y ∨
      (∃ b p : Fin 9, b.val < bi ∧ x = boxCellR b p ∧ y = boxCellC b p ∧
        lineDup (boxLine g b) p)) →
    ∀ x y, boxPass g bi conf x y = true ↔ P x y ∨ boxDup g x y := by
  intro n
  induction n with
  | zero =>
    intro bi hbi conf hconf x y
    have hb9 : bi = 9 := by omega
    subst hb9
    rw [boxPass, dif_neg (by omega)]
    rw [hconf x y]
    constructor
    · rintro (hP | ⟨b, p, _, h1, h2, hd⟩)
      · exact Or.inl hP
      · exact Or.inr ⟨b, p, h1, h2, hd⟩
    · rintro (hP | ⟨b, p, h1, h2, hd⟩)
      · exact Or.inl hP
      · exact Or.inr ⟨b, p, b.2, h1, h2, hd⟩
  | succ n ih =>
    intro bi hbi conf hconf x y
    have hb9 : bi < 9 := by omega
    rw [boxPass, dif_pos hb9]
    have hloop := boxLoop_spec g ⟨bi, hb9⟩
      (fun x y => P x y ∨
        (∃ b p : Fin 9, b.val < bi ∧ x = boxCellR b p ∧ y = boxCellC b p ∧
          lineDup (boxLine g b) p))
      9 0 (by omega) conf emptyPMap (emptyPMap_lo _ _) (emptyPMap_hi _ _)
      (by
        intro x y
        rw [hconf x y]
        constructor
        · intro h
          exact Or.inl h
        · rintro (h | ⟨p, _, _, hfl⟩)
          · exact h
          · exact absurd hfl (lineFlagged_zero _ _))
    apply ih (bi + 1) (by omega)
    intro x y
    rw [hloop x y]
    constructor
    · rintro ((hP | ⟨b, p, hb, h1, h2, hd⟩) | ⟨p, h1, h2, hfl⟩)
      · exact Or.inl hP
      · exact Or.inr ⟨b, p, by omega, h1, h2, hd⟩
      · exact Or.inr ⟨⟨bi, hb9⟩, p, by show bi < bi + 1; omega, h1, h2,
          (lineFlagged_nine_iff _ _).mp hfl⟩
    · rintro (hP | ⟨b, p, hb, h1, h2, hd⟩)
      · exact Or.inl (Or.inl hP)
      · by_cases hbb : b.val < bi
        · exact Or.inl (Or.inr ⟨b, p, hbb, h1, h2, hd⟩)
        · have hbe : b = (⟨bi, hb9⟩ : Fin 9) := Fin.ext (by show b.val = bi; omega)
          subst hbe
          exact Or.inr ⟨p, h1, h2, (lineFlagged_nine_iff _ _).mpr hd⟩

theorem findConflicts_char (g : Grid) (x y : Fin 9) :
    findConflicts g x y = true ↔
      rowDup g x y ∨ colDup g x y ∨ boxDup g x y := by
  have hrc := rcPass_spec g 9 0 (by omega) (fun _ _ => false)
    (by
      intro x y
      constructor
      · intro h
        exact absurd h (by simp)
      · rintro (⟨h, _⟩ | ⟨h, _⟩) <;> omega)
  have hbox := boxPass_spec g (fun x y => rowDup g x y ∨ colDup g x y)
    9 0 (by omega) (rcPass g 0 fun _ _ => false)
    (by
      intro x y
      rw [hrc x y]
      constructor
      · intro h
        exact Or.inl h
      · rintro (h | ⟨b, p, hb, _⟩)
        · exact h
        · exact absurd hb (by omega))
  rw [show findConflicts g x y = boxPass g 0 (rcPass g 0 fun _ _ => false) x y
    from rfl, hbox x y]
  tauto

theorem sameBox_exists (x y x' y' : Fin 9) (h : sameBox x y x' y') :
    ∃ b p p' : Fin 9, x = boxCellR b p ∧ y = boxCellC b p ∧
      x' = boxCellR b p' ∧ y' = boxCellC b p' := by
  have hx := x.2
  have hy := y.2
  have hx' := x'.2
  have hy' := y'.2
  obtain ⟨h1, h2⟩ := h
  refine ⟨⟨3 * (x.val / 3) + y.val / 3, by omega⟩,
    ⟨3 * (x.val % 3) + y.val % 3, by omega⟩,
    ⟨3 * (x'.val % 3) + y'.val % 3, by omega⟩, ?_, ?_, ?_, ?_⟩
  · apply Fin.ext
    show x.val = 3 * ((3 * (x.val / 3) + y.val / 3) / 3)
      + (3 * (x.val % 3) + y.val % 3) / 3
    omega
  · apply Fin.ext
    show y.val = 3 * ((3 * (x.val / 3) + y.val / 3) % 3)
      + (3 * (x.val % 3) + y.val % 3) % 3
    omega
  · apply Fin.ext
    show x'.val = 3 * ((3 * (x.val / 3) + y.val / 3) / 3)
      + (3 * (x'.val % 3) + y'.val % 3) / 3
    omega
  · apply Fin.ext
    show y'.val = 3 * ((3 * (x.val / 3) + y.val / 3) % 3)
      + (3 * (x'.val % 3) + y'.val % 3) % 3
    omega

theorem boxCell_sameBox (b p p' : Fin 9) :
    sameBox (boxCellR b p) (boxCellC b p) (boxCellR b p') (boxCellC b p') := by
  have hb := b.2
  have hp := p.2
  have hp' := p'.2
  constructor
  · show (3 * (b.val / 3) + p.val / 3) / 3
      = (3 * (b.val / 3) + p'.val / 3) / 3
    omega
  · show (3 * (b.val % 3) + p.val % 3) / 3
      = (3 * (b.val % 3) + p'.val % 3) / 3
    omega

theorem conflictCell_iff (g : Grid) (x y : Fin 9) :
    (rowDup g x y ∨ colDup g x y ∨ boxDup g x y) ↔
      (g x y ≠ none ∧ ∃ x' y' : Fin 9, (x', y') ≠ (x, y) ∧
        (x' = x ∨ y' = y ∨ sameBox x y x' y') ∧ g x' y' = g x y) := by
  constructor
  · rintro (⟨v, hv, y', hne, hv'⟩ | ⟨v, hv, x', hne, hv'⟩ |
      ⟨b, p, rfl, rfl, v, hv, p', hne, hv'⟩)
    · replace hv : g x y = some v := hv
      replace hv' : g x y' = some v := hv'
      refine ⟨by simp [hv], x, y', ?_, Or.inl rfl, by rw [hv', hv]⟩
      intro hq
      exact hne (congrArg Prod.snd hq)
    · replace hv : g x y = some v := hv
      replace hv' : g x' y = some v := hv'
      refine ⟨by simp [hv], x', y, ?_, Or.inr (Or.inl rfl), by rw [hv', hv]⟩
      intro hq
      exact hne (congrArg Prod.fst hq)
    · replace hv : g (boxCellR b p) (boxCellC b p) = some v := hv
      replace hv' : g (boxCellR b p') (boxCellC b p') = some v := hv'
      refine ⟨by simp [hv], boxCellR b p', boxCellC b p', ?_,
        Or.inr (Or.inr (boxCell_sameBox b p p')), by rw [hv', hv]⟩
      intro hq
      exact hne (boxCell_inj b p' p (congrArg Prod.fst hq)
        (congrArg Prod.snd hq))
  · rintro ⟨hne, x', y', hpne, hrel, heq⟩
    obtain ⟨v, hv⟩ := Option.ne_none_iff_exists'.mp hne
    have hv' : g x' y' = some v := by rw [heq, hv]
    rcases hrel with rfl | rfl | hbox
    · left
      refine ⟨v, hv, y', ?_, hv'⟩
      intro hq
      exact hpne (by rw [hq])
    · right; left
      refine ⟨v, hv, x', ?_, hv'⟩
      intro hq
      exact hpne (by rw [hq])
    · right; right
      obtain ⟨b, p, p', h1, h2, h3, h4⟩ := sameBox_exists x y x' y' hbox
      refine ⟨b, p, h1, h2, v, ?_, p', ?_, ?_⟩
      · show g (boxCellR b p) (boxCellC b p) = some v
        rw [← h1, ← h2]
        exact hv
      · intro hq
        apply hpne
        have hx : x' = x := by rw [h3, hq, ← h1]
        have hy : y' = y := by rw [h4, hq, ← h2]
        rw [hx, hy]
      · show g (boxCellR b p') (boxCellC b p') = some v
        rw [← h3, ← h4]
        exact hv'

/-- **C2.** `findConflicts` flags a cell `(r, c)` if and only if that cell
holds a non-empty value and at least one *other* cell in the same row,
column or 3×3 box holds the identical value.  (In particular both members
of every conflicting pair are flagged, since the right-hand side is
symmetric in the pair.) -/
theorem C2_findConflicts_iff (g : Grid) (r c : Fin 9) :
    findConflicts g r c = true ↔
      (g r c ≠ none ∧ ∃ r' c' : Fin 9, (r', c') ≠ (r, c) ∧
        (r' = r ∨ c' = c ∨ sameBox r c r' c') ∧ g r' c' = g r c) := by
  rw [findConflicts_char, conflictCell_iff]

theorem noDup_iff_conflicts_false (g : Grid) :
    noDup g ↔ ∀ x y, findConflicts g x y = false := by
  constructor
  · intro hnd x y
    rw [Bool.eq_false_iff]
    intro htrue
    rw [findConflicts_char, conflictCell_iff] at htrue
    obtain ⟨hne, x', y', hpne, hrel, heq⟩ := htrue
    have hpeers : peers x y x' y' := by
      constructor
      · by_cases hx : x = x'
        · right
          intro hy
          exact hpne (by rw [hx, hy])
        · left
          exact hx
      · rcases hrel with h | h | h
        · exact Or.inl h.symm
        · exact Or.inr (Or.inl h.symm)
        · exact Or.inr (Or.inr h)
    exact hnd x y x' y' hpeers hne heq.symm
  · intro hfc r c r' c' hp hne heq
    have h2 : findConflicts g r c = true := by
      rw [findConflicts_char, conflictCell_iff]
      refine ⟨hne, r', c', ?_, ?_, heq.symm⟩
      · intro hq
        rcases hp.1 with h | h
        · exact h (congrArg Prod.fst hq).symm
        · exact h (congrArg Prod.snd hq).symm
      · rcases hp.2 with h | h | h
        · exact Or.inl h.symm
        · exact Or.inr (Or.inl h.symm)
        · exact Or.inr (Or.inr h)
    rw [hfc r c] at h2
    exact absurd h2 (by simp)

/-! ## Claim theorem: the Generator -/

theorem cloneGrid_eq (g : Grid) : cloneGrid g = g := rfl

/-- **C3.** Whenever the generator's removal loop terminates (i.e. for
every draw stream on which `generateSudoku` produces a grid — and such
streams exist for every difficulty), the produced grid has exactly
36/27/18 filled cells for easy/medium/hard, its filled cells are pairwise
non-conflicting (`findConflicts` flags nothing), and the Solver solves it
(it is a pure restriction of the solved board the generator started
from). -/
theorem C3_generator (d : Difficulty) (rands : List (Fin 9 × Fin 9)) :
    (Option.elim (generateSudoku d rands) True fun g' =>
      filledCount g' = difficultyMapping d ∧
      (∀ r c, findConflicts g' r c = false) ∧
      (solveSudoku g').1 = true) ∧
    (∃ rands' g₀, generateSudoku d rands' = some g₀) := by
  constructor
  · rcases hgen : generateSudoku d rands with _ | g'
    · exact trivial
    · show filledCount g' = difficultyMapping d ∧
        (∀ r c, findConflicts g' r c = false) ∧ (solveSudoku g').1 = true
      unfold generateSudoku at hgen
      rcases hrm : removeNumbers (cloneGrid (solveSudoku emptyGrid).2)
          (81 - difficultyMapping d) 0 rands with _ | ⟨g'', iters⟩
      · rw [hrm] at hgen
        exact absurd hgen (by simp)
      · rw [hrm] at hgen
        have hg' : g'' = g' := by
          have := Option.some.inj hgen
          exact this
        subst hg'
        obtain ⟨hfc, _, hle⟩ := removeNumbers_success_spec rands _ _ _ _ _ hrm
        rw [cloneGrid_eq] at hfc hle
        have hfull := solvedBoard_full
        have hS : filledCount (solveSudoku emptyGrid).2 = 81 :=
          fullGrid_filledCount _ hfull
        rw [hS] at hfc
        have hnd : noDup g'' :=
          noDup_mono g'' (solveSudoku emptyGrid).2 hle solvedBoard_noDup
        refine ⟨?_, (noDup_iff_conflicts_false g'').mp hnd, ?_⟩
        · cases d <;> simp only [difficultyMapping] at hfc ⊢ <;> omega
        · exact solveSudoku_complete g''
            ⟨(solveSudoku emptyGrid).2, hle, hfull, solvedBoard_noDup,
              solvedBoard_wellFormed⟩
  · have hnodup : allCells.Nodup := by decide
    have hlen : allCells.length = 81 := by decide
    have hfill : ∀ p ∈ allCells,
        cloneGrid (solveSudoku emptyGrid).2 p.1 p.2 ≠ none := by
      intro p _
      rw [cloneGrid_eq]
      exact solvedBoard_full p.1 p.2
    obtain ⟨g₀, iters, h⟩ := removeNumbers_distinct_success allCells
      (cloneGrid (solveSudoku emptyGrid).2) (81 - difficultyMapping d) 0
      hnodup hfill (by omega)
    refine ⟨allCells, g₀, ?_⟩
    unfold generateSudoku
    rw [h]
    rfl

/-! ## Claim theorems: the Hint Provider -/

theorem emptyCellsList_len_zero_iff (g : Grid) :
    (emptyCellsList g).length = 0 ↔ ∀ r c, g r c ≠ none := by
  rw [List.length_eq_zero]
  unfold emptyCellsList
  rw [List.filter_eq_nil_iff]
  constructor
  · intro h r c hc
    have := h (r, c) (mem_allCells (r, c))
    simp only [Option.isNone_iff_eq_none] at this
    exact this hc
  · intro h p _
    simp only [Option.isNone_iff_eq_none]
    exact h p.1 p.2

theorem emptyCellsList_mem_empty (g : Grid) (p : Fin 9 × Fin 9)
    (h : p ∈ emptyCellsList g) : g p.1 p.2 = none := by
  unfold emptyCellsList at h
  have := List.of_mem_filter h
  simpa [Option.isNone_iff_eq_none] using this

/-- **C6.** `getHint` returns `null` exactly when the grid has no empty
cell or the Solver finds no completion of (a clone of) the grid;
otherwise it returns a triple `(row, col, value)` such that the cell was
empty in the input grid and `value` is the digit that cell holds in the
completion the Solver found. -/
theorem C6_hint_contract (g : Grid) (k : Nat) :
    ((getHint g k).1 = none ↔
      (∀ r c, g r c ≠ none) ∨ (solveSudoku (cloneGrid g)).1 = false) ∧
    (∀ r c v, (getHint g k).1 = some ⟨r, c, v⟩ →
      g r c = none ∧ (solveSudoku (cloneGrid g)).2 r c = some v) := by
  by_cases h : (emptyCellsList g).length = 0
  · have hg : getHint g k = (none, g) := by
      simp only [getHint]
      rw [dif_pos h]
    rw [hg]
    constructor
    · exact ⟨fun _ => Or.inl ((emptyCellsList_len_zero_iff g).mp h),
        fun _ => rfl⟩
    · intro r c v hq
      exact absurd hq (by simp)
  · rcases hres : solveSudoku (cloneGrid g) with ⟨ok, solved⟩
    have hrc : (emptyCellsList g).get ⟨k % (emptyCellsList g).length,
        Nat.mod_lt _ (Nat.pos_of_ne_zero h)⟩ ∈ emptyCellsList g :=
      List.get_mem _ _ _
    cases ok with
    | false =>
      have hg : getHint g k = (none, g) := by
        simp only [getHint]
        rw [dif_neg h]
        simp only [hres]
      rw [hg]
      constructor
      · exact ⟨fun _ => Or.inr rfl, fun _ => rfl⟩
      · intro r c v hq
        exact absurd hq (by simp)
    | true =>
      have hfull : fullGrid solved := by
        have := (solveSudoku_sound (cloneGrid g)).2.2.1
        rw [hres] at this
        exact this rfl
      obtain ⟨v, hv⟩ := Option.ne_none_iff_exists'.mp
        (hfull ((emptyCellsList g).get ⟨k % (emptyCellsList g).length,
          Nat.mod_lt _ (Nat.pos_of_ne_zero h)⟩).1
          ((emptyCellsList g).get ⟨k % (emptyCellsList g).length,
            Nat.mod_lt _ (Nat.pos_of_ne_zero h)⟩).2)
      have hg : getHint g k
          = (some ⟨((emptyCellsList g).get ⟨k % (emptyCellsList g).length,
              Nat.mod_lt _ (Nat.pos_of_ne_zero h)⟩).1,
            ((emptyCellsList g).get ⟨k % (emptyCellsList g).length,
              Nat.mod_lt _ (Nat.pos_of_ne_zero h)⟩).2, v⟩, g) := by
        simp only [getHint]
        rw [dif_neg h]
        simp only [hres, hv]
      rw [hg]
      constructor
      · constructor
        · intro hq
          exact absurd hq (by simp)
        · rintro (hfl | hfl)
          · exact absurd h (by
              intro _
              exact h ((emptyCellsList_len_zero_iff g).mpr hfl))
          · exact absurd hfl (by simp)
      · intro r c v' hq
        have hinj := Option.some.inj hq
        have h1 := congrArg Hint.row hinj
        have h2 := congrArg Hint.col hinj
        have h3 := congrArg Hint.value hinj
        simp only at h1 h2 h3
        constructor
        · rw [← h1, ← h2]
          exact emptyCellsList_mem_empty g _ hrc
        · rw [← h1, ← h2, ← h3]
          exact hv

/-- Witness for C6 at a concrete grid with one empty cell: the hint is the
cleared value of `gCanon` at `(0, 0)`. -/
theorem C6_hint_contract_witness :
    (getHint gAlmost 0).1 = some ⟨0, 0, 1⟩ ∧
      (gAlmost 0 0 = none ∧
        (solveSudoku (cloneGrid gAlmost)).2 0 0 = some 1) :=
  ⟨by decide, (C6_hint_contract gAlmost 0).2 0 0 1 (by decide)⟩

/-- **C8.** `getHint` leaves the grid passed in completely unchanged: the
Solver's in-place mutation is applied only to the internal clone, so the
caller-visible grid after the call is the input grid, whether or not a
hint is returned. -/
theorem C8_hint_preserves_grid (g : Grid) (k : Nat) :
    (getHint g k).2 = g := by
  simp only [getHint]
  split
  · rfl
  · split
    · split <;> rfl
    · rfl

/-! ## The whole-grid validator -/

theorem isValidGroup_eq_true_iff (l : List (Option Nat)) :
    isValidGroup l = true ↔ (l.filterMap id).Nodup := by
  unfold isValidGroup
  rw [beq_iff_eq]
  constructor
  · intro h
    have hsub := List.dedup_sublist (l.filterMap id)
    have heq := List.Sublist.eq_of_length hsub h
    rw [← heq]
    exact List.nodup_dedup _
  · intro h
    rw [List.dedup_eq_self.mpr h]

theorem nodup_filterMap_iff : ∀ (l : List (Fin 9)), l.Nodup →
    ∀ f : Fin 9 → Option Nat,
    ((l.filterMap f).Nodup ↔
      ∀ a ∈ l, ∀ b ∈ l, a ≠ b → ∀ v, f a = some v → f b ≠ some v) := by
  intro l
  induction l with
  | nil =>
    intro _ f
    simp
  | cons a l ih =>
    intro hnd f
    have hal : a ∉ l := (List.nodup_cons.mp hnd).1
    have hln : l.Nodup := (List.nodup_cons.mp hnd).2
    rcases hfa : f a with _ | v0
    · rw [List.filterMap_cons_none hfa, ih hln f]
      constructor
      · intro h x hx y hy hxy v hfx
        rcases List.mem_cons.mp hx with rfl | hx'
        · rw [hfa] at hfx
          exact absurd hfx (by simp)
        · rcases List.mem_cons.mp hy with rfl | hy'
          · intro hfy
            rw [hfa] at hfy
            exact absurd hfy (by simp)
          · exact h x hx' y hy' hxy v hfx
      · intro h x hx y hy hxy v hfx
        exact h x (List.mem_cons_of_mem _ hx) y (List.mem_cons_of_mem _ hy)
          hxy v hfx
    · rw [List.filterMap_cons_some hfa, List.nodup_cons, ih hln f,
        List.mem_filterMap]
      constructor
      · rintro ⟨hnotin, hrest⟩ x hx y hy hxy v hfx hfy
        rcases List.mem_cons.mp hx with rfl | hx'
        · rcases List.mem_cons.mp hy with rfl | hy'
          · exact hxy rfl
          · rw [hfa] at hfx
            have hv0 : v = v0 := (Option.some.inj hfx).symm
            subst hv0
            exact hnotin ⟨y, hy', hfy⟩
        · rcases List.mem_cons.mp hy with rfl | hy'
          · rw [hfa] at hfy
            have hv0 : v = v0 := (Option.some.inj hfy).symm
            subst hv0
            exact hnotin ⟨x, hx', hfx⟩
          · exact hrest x hx' y hy' hxy v hfx hfy
      · intro h
        constructor
        · rintro ⟨y, hy, hfy⟩
          refine h a (List.mem_cons_self _ _) y (List.mem_cons_of_mem _ hy)
            ?_ v0 hfa hfy
          intro hq
          exact hal (hq ▸ hy)
        · intro x hx y hy hxy v hfx
          exact h x (List.mem_cons_of_mem _ hx) y (List.mem_cons_of_mem _ hy)
            hxy v hfx

/-- No value occurs twice on the line `f`. -/
def lineNoDup (f : Fin 9 → Option Nat) : Prop :=
  ∀ a b : Fin 9, a ≠ b → ∀ v, f a = some v → f b ≠ some v

theorem lineValid_iff (f : Fin 9 → Option Nat) :
    isValidGroup ((List.finRange 9).map f) = true ↔ lineNoDup f := by
  rw [isValidGroup_eq_true_iff]
  have hmap : ((List.finRange 9).map f).filterMap id
      = (List.finRange 9).filterMap f := by
    rw [List.filterMap_map]
    rfl
  rw [hmap, nodup_filterMap_iff (List.finRange 9) (List.nodup_finRange 9) f]
  constructor
  · intro h a b hab v hfa
    exact h a (List.mem_finRange a) b (List.mem_finRange b) hab v hfa
  · intro h a _ b _ hab v hfa
    exact h a b hab v hfa

theorem noDup_iff_lines (g : Grid) : noDup g ↔
    (∀ i, lineNoDup (fun t => g i t)) ∧ (∀ i, lineNoDup (fun t => g t i)) ∧
      (∀ b, lineNoDup (boxLine g b)) := by
  constructor
  · intro hnd
    refine ⟨?_, ?_, ?_⟩
    · intro i a b hab v hfa hfb
      exact hnd i a i b (peers_row i a b hab) (by simp [show g i a = some v from hfa])
        (by rw [show g i a = some v from hfa,
          show g i b = some v from hfb])
    · intro i a b hab v hfa hfb
      exact hnd a i b i (peers_col i a b hab) (by simp [show g a i = some v from hfa])
        (by rw [show g a i = some v from hfa,
          show g b i = some v from hfb])
    · intro bb a b hab v hfa hfb
      exact hnd (boxCellR bb a) (boxCellC bb a) (boxCellR bb b)
        (boxCellC bb b) (peers_box bb a b hab)
        (by simp [show g (boxCellR bb a) (boxCellC bb a) = some v from hfa])
        (by rw [show g (boxCellR bb a) (boxCellC bb a) = some v from hfa,
          show g (boxCellR bb b) (boxCellC bb b) = some v from hfb])
  · rintro ⟨hrow, hcol, hbox⟩ r c r' c' hp hne heq
    obtain ⟨v, hv⟩ := Option.ne_none_iff_exists'.mp hne
    have hv' : g r' c' = some v := by rw [← heq, hv]
    rcases hp.2 with rfl | rfl | hsb
    · have hcc : c ≠ c' := by
        rcases hp.1 with h | h
        · exact absurd rfl h
        · exact h
      exact hrow r c c' hcc v hv hv'
    · have hrr : r ≠ r' := by
        rcases hp.1 with h | h
        · exact h
        · exact absurd rfl h
      exact hcol c r r' hrr v hv hv'
    · obtain ⟨b, p, p', h1, h2, h3, h4⟩ := sameBox_exists r c r' c' hsb
      have hpp : p ≠ p' := by
        intro hq
        subst hq
        rcases hp.1 with h | h
        · exact h (by rw [h1, h3])
        · exact h (by rw [h2, h4])
      refine hbox b p p' hpp v ?_ ?_
      · show g (boxCellR b p) (boxCellC b p) = some v
        rw [← h1, ← h2]
        exact hv
      · show g (boxCellR b p') (boxCellC b p') = some v
        rw [← h3, ← h4]
        exact hv'

theorem isValidSudoku_iff_noDup (g : Grid) :
    isValidSudoku g = true ↔ noDup g := by
  unfold isValidSudoku
  simp only [Bool.and_eq_true, List.all_eq_true, List.mem_finRange,
    true_implies]
  rw [noDup_iff_lines]
  constructor
  · rintro ⟨hrc, hb⟩
    refine ⟨?_, ?_, ?_⟩
    · intro i
      exact (lineValid_iff (fun t => g i t)).mp (hrc i).1
    · intro i
      exact (lineValid_iff (fun t => g t i)).mp (hrc i).2
    · intro b
      exact (lineValid_iff (boxLine g b)).mp (hb b)
  · rintro ⟨hr, hc, hb⟩
    refine ⟨fun i => ⟨?_, ?_⟩, fun b => ?_⟩
    · exact (lineValid_iff (fun t => g i t)).mpr (hr i)
    · exact (lineValid_iff (fun t => g t i)).mpr (hc i)
    · exact (lineValid_iff (boxLine g b)).mpr (hb b)

/-- **C9.** The two exported validators agree: `isValidSudoku` returns
`true` if and only if `findConflicts` flags no cell. -/
theorem C9_validators_agree (g : Grid) :
    isValidSudoku g = true ↔ ∀ r c, findConflicts g r c = false := by
  rw [isValidSudoku_iff_noDup]
  exact noDup_iff_conflicts_false g

end Sudoku
